import Mathlib

/-! # 6curl: segmented HTTP downloader (`6curl.c`)

A shallow embedding of the download core of `6curl.c` and the properties of
its byte-range plan, segment fetcher, merger, single-stream fallback,
progress sampler and file-name extraction.

Conventions of the embedding

* C strings are `List Char` (the characters before the terminating NUL).
* `long` / `curl_off_t` / `time_t` values are `Int`; where the source does
  arithmetic on them the result is passed through `wrap_long`, the 64-bit
  two's-complement reduction, so that absence of overflow is proved, not assumed.
* The file system is a map from paths to byte sequences. Opening for reading
  succeeds exactly on the paths of the map; whether a path can be opened for
  writing is an input of the model (`can_create`).
* libcurl and pthreads are inputs of the model: what `get_file_size`,
  `curl_easy_init`, `curl_easy_perform`, `curl_easy_getinfo` and
  `pthread_create` return is read from an `Env`.
* A run with undefined behaviour (the join of a thread that was never created) has no
  result: `multithread_download` returns `none` for it.
* `PATH_MAX` comes from a system header; it is a parameter.
* Texts written to the 256-byte `status` buffer and to standard output are kept whole
  (they are not cut to the buffer size); the theorems read only their first characters.
-/

namespace SixCurl

/-! ## Machine integers -/

/-- The constant of `#define THREAD_COUNT 16`. -/
def THREAD_COUNT : Nat := 16

/-- Reduction of an integer to the range of a signed 64-bit `long`. -/
def wrap_long (x : Int) : Int := (x + 2 ^ 63) % 2 ^ 64 - 2 ^ 63

/-- The values a `long` can hold. -/
def is_long (x : Int) : Prop := -(2 ^ 63) ≤ x ∧ x < 2 ^ 63

instance (x : Int) : Decidable (is_long x) := by unfold is_long; infer_instance

/-! ## The segment plan of `multithread_download` (lines 258-270) -/

/-- The statement `long chunk_size = file_size / THREAD_COUNT;` (C division truncates
towards zero). -/
def chunk_size (file_size : Int) (N : Nat) : Int := Int.tdiv file_size (N : Int)

/-- The statement `thread_data[i].start_byte = i * chunk_size;`. -/
def start_byte (file_size : Int) (N i : Nat) : Int :=
  wrap_long ((i : Int) * chunk_size file_size N)

/-- The statement `thread_data[i].end_byte = (i == THREAD_COUNT - 1) ? file_size - 1 :
(i + 1) * chunk_size - 1;`. -/
def end_byte (file_size : Int) (N i : Nat) : Int :=
  if (i : Int) = (N : Int) - 1 then wrap_long (file_size - 1)
  else wrap_long (wrap_long (((i : Int) + 1) * chunk_size file_size N) - 1)

/-- The ranges produced by the loop `for (i = 0; i < N; i++)`, in index order. -/
def segment_plan (file_size : Int) (N : Nat) : List (Int × Int) :=
  (List.range N).map (fun i => (start_byte file_size N i, end_byte file_size N i))

/-- Membership of a byte offset in the inclusive range `[s, e]` (empty when `s > e`). -/
def in_range (x : Int) (r : Int × Int) : Prop := r.1 ≤ x ∧ x ≤ r.2

instance (x : Int) (r : Int × Int) : Decidable (in_range x r) := by
  unfold in_range; infer_instance

/-! ## C strings and `printf` conversions -/

/-- A C string: the characters before the terminating NUL. -/
abbrev CStr := List Char

/-- File contents. -/
abbrev Bytes := List Nat

/-- The conversion `%d` / `%ld`: an optional minus sign and the decimal digits. -/
def fmt_d (i : Int) : CStr :=
  if i < 0 then '-' :: Nat.toDigits 10 i.natAbs else Nat.toDigits 10 i.natAbs

/-- What `snprintf(buf, size, ...)` leaves in `buf` when the formatted text is `s`:
at most `size - 1` characters of it. -/
def snprintf (size : Nat) (s : CStr) : CStr := s.take (size - 1)

/-- The formatted text of `"%s.part%d"`. -/
def part_text (filename : CStr) (i : Nat) : CStr :=
  filename ++ ".part".toList ++ fmt_d (i : Int)

/-- The call `snprintf(part_filename, sizeof(part_filename), "%s.part%d", filename, i)` with
`char part_filename[PATH_MAX]` (the same statement builds `temp_filename` in
`download_thread`). -/
def part_filename (PATH_MAX : Nat) (filename : CStr) (i : Nat) : CStr :=
  snprintf PATH_MAX (part_text filename i)

/-- The call `snprintf(range_header, sizeof(range_header), "%ld-%ld", start_byte, end_byte)` with
`char range_header[50]`. -/
def range_header (start_byte end_byte : Int) : CStr :=
  snprintf 50 (fmt_d start_byte ++ '-' :: fmt_d end_byte)

/-- The number a string of decimal digits denotes. -/
def digits_value (cs : List Char) : Nat :=
  cs.foldl (fun acc c => 10 * acc + (c.toNat - 48)) 0

/-! ## `extract_filename` (lines 76-95) -/

/-- The call `strchr(s, c)` for `c` other than NUL: the offset of the first occurrence. -/
def strchr : CStr → Char → Option Nat
  | [], _ => none
  | x :: xs, c => if x = c then some 0 else (strchr xs c).map (· + 1)

/-- The call `strrchr(s, c)` for `c` other than NUL: the offset of the last occurrence. -/
def strrchr : CStr → Char → Option Nat
  | [], _ => none
  | x :: xs, c =>
    match strrchr xs c with
    | some k => some (k + 1)
    | none => if x = c then some 0 else none

/-- The function `char *extract_filename(const char *url)`; `none` is the NULL result.
`strdup` and `malloc` are taken to succeed. -/
def extract_filename (url : CStr) : Option CStr :=
  match strrchr url '/' with
  | none => some url
  | some last_slash =>
    if url.drop (last_slash + 1) = [] then none
    else
      let filename_start := url.drop (last_slash + 1)
      match strchr filename_start '?' with
      | some question_mark => some (filename_start.take question_mark)
      | none => some filename_start

/-! ## `progress_callback` (lines 57-74) -/

/-- The two `static` locals of `progress_callback`: one copy for the whole process. -/
structure Statics where
  last_time : Int
  last_dlnow : Int
deriving DecidableEq, Repr

/-- Initial values of the statics: `static time_t last_time = 0; static curl_off_t last_dlnow = 0;` -/
def Statics.init : Statics := { last_time := 0, last_dlnow := 0 }

/-- One call `progress_callback(data, _, dlnow, _, _)` at wall-clock second `now = time(NULL)`.
Takes the statics and `data->download_speed`, returns both after the call (the C return
value is always 0). `download_speed` is a `double` in the source; it only ever receives
integers and is kept as an integer here. -/
def progress_callback (st : Statics) (download_speed : Int) (now dlnow : Int) :
    Statics × Int :=
  if now > st.last_time then
    let speed :=
      if st.last_dlnow > 0 then
        Int.tdiv (wrap_long (dlnow - st.last_dlnow)) (wrap_long (now - st.last_time))
      else download_speed
    ({ last_time := now, last_dlnow := dlnow }, speed)
  else (st, download_speed)

/-- A callback delivered by libcurl: the fetch (thread) it belongs to, the second `now`
at which it runs and the `dlnow` it carries. -/
structure Callback where
  fetch : Nat
  now : Int
  dlnow : Int
deriving DecidableEq, Repr

/-- Process state seen by the callbacks: the shared statics and every fetch's
`download_speed` field. -/
structure SpeedState where
  statics : Statics
  speed : Nat → Int

/-- Delivery of one callback: `clientp` points to the `ThreadData` of `c.fetch`. -/
def deliver (s : SpeedState) (c : Callback) : SpeedState :=
  let r := progress_callback s.statics (s.speed c.fetch) c.now c.dlnow
  { statics := r.1, speed := fun k => if k = c.fetch then r.2 else s.speed k }

/-- Delivery of a sequence of callbacks, starting with all `download_speed = 0`
(`thread_data[i].download_speed = 0`). -/
def deliver_all (cs : List Callback) : SpeedState :=
  cs.foldl deliver { statics := Statics.init, speed := fun _ => 0 }

/-! ## File system -/

/-- A file system: the content of every existing path. -/
abbrev FS := CStr → Option Bytes

/-- Effect of a successful `fopen(path, "wb")`: the path exists and is empty. -/
def fopen_wb (fs : FS) (path : CStr) : FS :=
  fun q => if q = path then some [] else fs q

/-- Effect of `fwrite` on a stream opened for writing on `path`: the bytes are appended
(nothing shows under a path that has been removed in the meantime). -/
def fwrite (fs : FS) (path : CStr) (data : Bytes) : FS :=
  fun q => if q = path then (fs path).map (· ++ data) else fs q

/-- Effect of `remove(path)`. -/
def remove (fs : FS) (path : CStr) : FS :=
  fun q => if q = path then none else fs q

/-! ## `merge_files` (lines 180-208) -/

/-- The copy loop `while ((nread = fread(buffer, 1, sizeof(buffer), input)) > 0)
fwrite(buffer, 1, nread, output);` over the unread content `input`, with a buffer of
`bufsize` bytes. -/
def copy_loop (bufsize : Nat) (output : CStr) (input : Bytes) (fs : FS) : FS :=
  if h : input.take bufsize = [] then fs
  else
    have _hlt : (input.drop bufsize).length < input.length := by
      have hb : bufsize ≠ 0 := fun h0 => h (by simp [h0])
      have hi : input ≠ [] := fun h0 => h (by simp [h0])
      have hlen : 0 < input.length := List.length_pos.mpr hi
      simp only [List.length_drop]
      omega
    copy_loop bufsize output (input.drop bufsize) (fwrite fs output (input.take bufsize))
termination_by input.length
decreasing_by exact _hlt

/-- One iteration of the `for` loop of `merge_files`, on (file system, `success`). The
part file is read as it is when `fopen(part_filename, "rb")` opens it. -/
def merge_step (PATH_MAX : Nat) (filename : CStr) (st : FS × Int) (i : Nat) : FS × Int :=
  match st.1 (part_filename PATH_MAX filename i) with
  | none => (st.1, 0)
  | some content =>
    (remove (copy_loop 8192 filename content st.1) (part_filename PATH_MAX filename i), st.2)

/-- The function `int merge_files(const char *filename, int thread_count)`: the file system after the
call and the returned `success`. -/
def merge_files (PATH_MAX : Nat) (can_create : CStr → Bool) (fs : FS) (filename : CStr)
    (thread_count : Int) : FS × Int :=
  if can_create filename then
    (List.range thread_count.toNat).foldl (merge_step PATH_MAX filename)
      (fopen_wb fs filename, 1)
  else (fs, 0)

/-- Bytes `r.1 .. r.2` (inclusive) of a resource; no byte when `r.2 < r.1`. -/
def slice (resource : Bytes) (r : Int × Int) : Bytes :=
  (resource.drop r.1.toNat).take (r.2 + 1 - r.1).toNat

/-- A small file system: two part files of the output `out`. -/
def demo_fs : FS := fun p =>
  if p = "out.part0".toList then some [1, 2]
  else if p = "out.part1".toList then some [3]
  else none

/-- An output path of 4090 characters: 2045 nested directories `/a/a/.../a`. -/
@[irreducible] def long_name : CStr := (List.replicate 2045 "/a".toList).flatten

/-- A file system whose only file is `long_name` followed by `.part` (4095 characters). -/
def cut_fs : FS := fun p => if p = long_name ++ ".part".toList then some [7] else none

/-! ## The environment: libcurl, pthreads and the operating system -/

/-- What one `curl_easy_perform` did, as the caller sees it. -/
structure Transfer where
  /-- The returned `CURLcode`; 0 is `CURLE_OK`. -/
  curl_res : Nat
  /-- The response code `curl_easy_getinfo(CURLINFO_RESPONSE_CODE)` reports afterwards. -/
  http_status : Int
  /-- The bytes handed to `write_callback`, in order. -/
  body : Bytes
  /-- The value of `data->download_speed` once the transfer is over (it is written by
  `progress_callback` during the transfer). -/
  speed : Int

/-- The inputs the program reads from outside. -/
structure Env where
  /-- The constant `PATH_MAX` of the system headers. -/
  PATH_MAX : Nat
  /-- The value `get_file_size(url)` returns. -/
  probed_size : Int
  /-- Whether `fopen(path, "wb")` succeeds. -/
  can_create : CStr → Bool
  /-- Whether `curl_easy_init()` succeeds in the single-stream branch. -/
  whole_init : Bool
  /-- The unranged transfer of the single-stream branch. -/
  whole : Transfer
  /-- Whether `pthread_create` succeeds for segment `i`. -/
  thread_ok : Nat → Bool
  /-- Whether `curl_easy_init()` succeeds in `download_thread` of segment `i`. -/
  seg_init : Nat → Bool
  /-- The ranged transfer of segment `i`. -/
  seg : Nat → Transfer
  /-- The text of `curl_easy_strerror`. -/
  strerror : Nat → CStr
  /-- The text `%.2f` gives for `download_speed / 1024.0` (floating point, not modelled). -/
  fmt_kbps : Int → CStr
  /-- The text `%.2f` gives for `(double)file_size / (1024 * 1024)` (not modelled). -/
  fmt_mb : Int → CStr

/-- The observable actions of a run, in order. -/
inductive Event where
  /-- A line written by `printf`. -/
  | say (text : CStr)
  /-- A line written by `perror`. -/
  | perror (text : CStr)
  /-- The call `curl_easy_perform` without `CURLOPT_RANGE`, writing to the output path. -/
  | perform_whole
  /-- The call `pthread_create` returned 0 for segment `i` with these offsets. -/
  | create_thread (i : Nat) (start_byte end_byte : Int)
  /-- The call `curl_easy_perform` of segment `i` with `CURLOPT_RANGE` set to `range`. -/
  | perform_range (i : Nat) (range : CStr)
  /-- The call `pthread_join` for segment `i`. -/
  | join (i : Nat)
  /-- The call `merge_files(filename, thread_count)`. -/
  | merge (thread_count : Int)
deriving DecidableEq

/-- The fields of `ThreadData` other than `url` and `filename` (which are the same for
every segment of a run). -/
structure ThreadData where
  start_byte : Int
  end_byte : Int
  thread_id : Nat
  status : CStr
  http_status : Int
  curl_res : Nat
  download_speed : Int
deriving DecidableEq

/-- The file system and the actions so far. -/
structure State where
  fs : FS
  log : List Event

/-! ## `download_thread` (lines 123-177) -/

/-- The test `data->curl_res == CURLE_OK && (data->http_status == 200 ||
data->http_status == 206)`. -/
def segment_accepted (curl_res : Nat) (http_status : Int) : Bool :=
  decide (curl_res = 0) && (decide (http_status = 200) || decide (http_status = 206))

/-- The function `void *download_thread(void *arg)`: the `ThreadData` and the state after
the call. -/
def download_thread (env : Env) (filename : CStr) (data : ThreadData) (st : State) :
    ThreadData × State :=
  let temp_filename := part_filename env.PATH_MAX filename data.thread_id
  if env.can_create temp_filename then
    let fs1 := fopen_wb st.fs temp_filename
    if env.seg_init data.thread_id then
      let range := range_header data.start_byte data.end_byte
      let t := env.seg data.thread_id
      let fs2 := fwrite fs1 temp_filename t.body
      let log2 := st.log ++ [Event.perform_range data.thread_id range]
      let status :=
        if segment_accepted t.curl_res t.http_status then
          "完成 (".toList ++ env.fmt_kbps t.speed ++ " KB/s)".toList
        else "失败 (".toList ++ env.strerror t.curl_res ++ ")".toList
      ({ data with curl_res := t.curl_res, http_status := t.http_status,
                   download_speed := t.speed, status := status },
       { fs := fs2, log := log2 })
    else
      ({ data with status := "curl初始化失败".toList }, { st with fs := fs1 })
  else
    ({ data with status := "无法创建临时文件".toList }, st)

/-- Whether a status text is the success text `完成 (...)`. -/
def reports_done (status : CStr) : Bool := "完成".toList.isPrefixOf status

/-- Whether a status text is the failure text `失败 (...)`. -/
def reports_failed (status : CStr) : Bool := "失败".toList.isPrefixOf status

/-! ## `multithread_download` (lines 211-295) -/

/-- The test `res != CURLE_OK || (http_code != 200 && http_code != 201 && http_code != 202)`. -/
def whole_rejected (curl_res : Nat) (http_code : Int) : Bool :=
  decide (curl_res ≠ 0) ||
    (decide (http_code ≠ 200) && decide (http_code ≠ 201) && decide (http_code ≠ 202))

/-- The branch `if (file_size <= 0) { ... return; }`: one unranged transfer written to
the output path. -/
def single_stream (env : Env) (filename : CStr) (st : State) : State :=
  let st1 : State :=
    { st with log := st.log ++ [Event.say "无法获取文件大小，使用单线程下载\n".toList] }
  if env.can_create filename then
    let fs1 := fopen_wb st1.fs filename
    if env.whole_init then
      let t := env.whole
      let fs2 := fwrite fs1 filename t.body
      let log2 := st1.log ++ [Event.perform_whole]
      if whole_rejected t.curl_res t.http_status then
        { fs := remove fs2 filename,
          log := log2 ++ [Event.say ("下载失败: ".toList ++ env.strerror t.curl_res ++
            " (HTTP ".toList ++ fmt_d t.http_status ++ ")\n清理中...\n".toList)] }
      else
        { fs := fs2, log := log2 ++ [Event.say "下载成功\n".toList] }
    else
      { st1 with fs := fs1 }
  else
    { st1 with log := st1.log ++
        [Event.say ("无法创建文件: ".toList ++ filename ++ "\n".toList)] }

/-- The `ThreadData` of segment `i` after the body of the creation loop. The fields the
loop leaves unset (`http_status`, `curl_res`) are 0 here; nothing reads them before the
thread stores them. -/
def spawn_data (env : Env) (file_size : Int) (i : Nat) : ThreadData :=
  { start_byte := start_byte file_size THREAD_COUNT i
    end_byte := end_byte file_size THREAD_COUNT i
    thread_id := i
    status := if env.thread_ok i then "下载中...".toList else "线程创建失败".toList
    http_status := 0
    curl_res := 0
    download_speed := 0 }

/-- The action of the creation loop for segment `i`. -/
def spawn_event (env : Env) (file_size : Int) (i : Nat) : Event :=
  if env.thread_ok i then
    Event.create_thread i (start_byte file_size THREAD_COUNT i)
      (end_byte file_size THREAD_COUNT i)
  else Event.perror "无法创建线程".toList

/-- The threads that were created run `download_thread`. They are taken in index order,
after the creation loop: one of the schedules the source allows (the store of `下载中...`
by the creating thread is taken to come before the thread's own stores to `status`). -/
def run_threads (env : Env) (filename : CStr) :
    List ThreadData → State → List ThreadData × State
  | [], st => ([], st)
  | d :: ds, st =>
    let r := if env.thread_ok d.thread_id then download_thread env filename d st else (d, st)
    let rest := run_threads env filename ds r.2
    (r.1 :: rest.1, rest.2)

/-- The actions of the join loop for one segment: `pthread_join`, then the line
`"线程 %d: %s\n"`. -/
def join_events (d : ThreadData) : List Event :=
  [Event.join d.thread_id,
   Event.say ("线程 ".toList ++ fmt_d (d.thread_id : Int) ++ ": ".toList ++ d.status ++
     "\n".toList)]

/-- The join loop (lines 283-286): `pthread_join(threads[i], NULL)`, then the line
`"线程 %d: %s\n"`, for every segment in index order. `threads[i]` is set only by a
successful `pthread_create`; for a segment whose thread was not created the loop joins an
uninitialised `pthread_t`, which is undefined behaviour: the result is `none`. -/
def join_loop (env : Env) : List ThreadData → Option (List Event)
  | [] => some []
  | d :: ds =>
    if env.thread_ok d.thread_id then
      match join_loop env ds with
      | some rest => some (join_events d ++ rest)
      | none => none
    else none

/-- The end of `multithread_download` (lines 288-294): the call of `merge_files` and the
closing line; the output is removed when `merge_files` returns 0. -/
def merge_and_report (env : Env) (filename : CStr) (st : State) : State :=
  let merged := merge_files env.PATH_MAX env.can_create st.fs filename (THREAD_COUNT : Int)
  let log4 := st.log ++ [Event.merge (THREAD_COUNT : Int)]
  if merged.2 ≠ 0 then
    { fs := merged.1, log := log4 ++ [Event.say "下载完成并合并成功\n".toList] }
  else
    { fs := remove merged.1 filename, log := log4 ++ [Event.say "文件合并失败\n".toList] }

/-- The part of `multithread_download` after the size test: plan, threads, join, merge.
The result is `none` when the run has undefined behaviour (see `join_loop`). -/
def parallel (env : Env) (filename : CStr) (st : State) : Option State :=
  let file_size := env.probed_size
  let log1 := st.log ++ [Event.say ("文件大小: ".toList ++ env.fmt_mb file_size ++
    " MB\n".toList)]
  let thread_data := (List.range THREAD_COUNT).map (spawn_data env file_size)
  let log2 := log1 ++ (List.range THREAD_COUNT).map (spawn_event env file_size)
  let ran := run_threads env filename thread_data { fs := st.fs, log := log2 }
  match join_loop env ran.1 with
  | some joins =>
    some (merge_and_report env filename { fs := ran.2.fs, log := ran.2.log ++ joins })
  | none => none

/-- The function `void multithread_download(const char *url, const char *filename)`: the
state on return, or `none` when the run has undefined behaviour. -/
def multithread_download (env : Env) (url filename : CStr) (fs : FS) : Option State :=
  let st0 : State :=
    { fs := fs,
      log := [Event.say ("开始下载: ".toList ++ url ++ "\n".toList),
              Event.say ("保存到: ".toList ++ filename ++ "\n".toList)] }
  if env.probed_size ≤ 0 then some (single_stream env filename st0)
  else parallel env filename st0

/-! ## Sample environments -/

/-- An environment in which every resource can be created: `PATH_MAX` is 4096, the probe
returns `probed_size` and segment `i` is answered by `seg i`. -/
def sample_env (probed_size : Int) (seg : Nat → Transfer) : Env :=
  { PATH_MAX := 4096
    probed_size := probed_size
    can_create := fun _ => true
    whole_init := true
    whole := { curl_res := 0, http_status := 200, body := [1, 2, 3], speed := 0 }
    thread_ok := fun _ => true
    seg_init := fun _ => true
    seg := seg
    strerror := fun n => if n = 0 then "No error".toList else "error".toList
    fmt_kbps := fun _ => "0.00".toList
    fmt_mb := fun _ => "0.00".toList }

/-- A server that honours the range: status 206 and one byte, the segment index. -/
def partial_content (i : Nat) : Transfer :=
  { curl_res := 0, http_status := 206, body := [i], speed := 0 }

/-- A server that ignores the range of segment 3: status 200 and the whole body. -/
def ignores_range (i : Nat) : Transfer :=
  if i = 3 then { curl_res := 0, http_status := 200, body := [0, 1, 2, 3], speed := 0 }
  else partial_content i

/-- A server that answers segment 2 with 404 and a two-byte error page. -/
def not_found_at_2 (i : Nat) : Transfer :=
  if i = 2 then { curl_res := 0, http_status := 404, body := [78, 70], speed := 0 }
  else partial_content i

/-- The state before a run: no file, nothing logged. -/
def empty_state : State := { fs := fun _ => none, log := [] }

/-- An environment with unknown size (the probe returns -1) in which `curl_easy_init`
fails in the single-stream branch. -/
def no_handle_env : Env := { sample_env (-1) partial_content with whole_init := false }

/-- Whether the thread of segment `i` gets as far as `curl_easy_perform`: the thread, its
temp file and its handle were all created. -/
def fetches (env : Env) (filename : CStr) (i : Nat) : Bool :=
  env.thread_ok i && env.can_create (part_filename env.PATH_MAX filename i) && env.seg_init i

/-- Events of the parallel branch only: thread creation, ranged transfer, join, merge. -/
def Event.is_segment_event : Event → Bool
  | Event.create_thread _ _ _ => true
  | Event.perform_range _ _ => true
  | Event.join _ => true
  | Event.merge _ => true
  | _ => false

/-- The event of a call of `merge_files`. -/
def Event.is_merge : Event → Bool
  | Event.merge _ => true
  | _ => false

/-- The `ThreadData` of segment `i` when its thread has been joined. -/
def thread_result (env : Env) (filename : CStr) (i : Nat) : ThreadData :=
  if env.thread_ok i then
    (download_thread env filename (spawn_data env env.probed_size i) empty_state).1
  else spawn_data env env.probed_size i

/-- The actions of the parallel branch from the creation loop to the last join, when
every thread was created. -/
def events_before_merge (env : Env) (filename : CStr) : List Event :=
  (List.range THREAD_COUNT).map (spawn_event env env.probed_size)
  ++ (List.range THREAD_COUNT).flatMap (fun i =>
      if fetches env filename i then
        [Event.perform_range i (range_header (start_byte env.probed_size THREAD_COUNT i)
          (end_byte env.probed_size THREAD_COUNT i))]
      else [])
  ++ (List.range THREAD_COUNT).flatMap (fun i => join_events (thread_result env filename i))

/-- The file system when all threads have been joined. -/
def fs_after_threads (env : Env) (filename : CStr) (fs : FS) : FS :=
  (run_threads env filename ((List.range THREAD_COUNT).map (spawn_data env env.probed_size))
    { fs := fs, log := [] }).2.fs

/-- The state of a run of the parallel branch in which every thread was created, when the
last thread has been joined. -/
def state_before_merge (env : Env) (url filename : CStr) (fs : FS) : State :=
  { fs := fs_after_threads env filename fs
    log := [Event.say ("开始下载: ".toList ++ url ++ "\n".toList),
            Event.say ("保存到: ".toList ++ filename ++ "\n".toList),
            Event.say ("文件大小: ".toList ++ env.fmt_mb env.probed_size ++ " MB\n".toList)]
      ++ events_before_merge env filename }

/-- An environment in which `pthread_create` fails for segment 5. -/
def no_thread_5_env : Env :=
  { sample_env 1000000 partial_content with thread_ok := fun i => decide (i ≠ 5) }

/-- An environment in which every thread is created and `curl_easy_init` fails in the
thread of segment 5. -/
def no_handle_5_env : Env :=
  { sample_env 1000000 partial_content with seg_init := fun i => decide (i ≠ 5) }

/-! # Theorems -/

/-! ### Plan arithmetic -/

theorem wrap_long_id {x : Int} (h : is_long x) : wrap_long x = x := by
  unfold is_long at h
  unfold wrap_long
  have h1 : (0 : Int) ≤ x + 2 ^ 63 := by linarith [h.1]
  have h2 : x + 2 ^ 63 < 2 ^ 64 := by linarith [h.2]
  rw [Int.emod_eq_of_lt h1 h2]
  ring

theorem chunk_size_eq {file_size : Int} (N : Nat) (h : 0 ≤ file_size) :
    chunk_size file_size N = file_size / (N : Int) := by
  unfold chunk_size
  exact Int.tdiv_eq_ediv h (Int.ofNat_nonneg N)

theorem chunk_size_nonneg {file_size : Int} (N : Nat) (h : 0 ≤ file_size) :
    0 ≤ chunk_size file_size N := by
  rw [chunk_size_eq N h]
  exact Int.ediv_nonneg h (Int.ofNat_nonneg N)

theorem chunk_size_mul_le {file_size : Int} {N : Nat} (h : 0 ≤ file_size) (hN : 1 ≤ N) :
    (N : Int) * chunk_size file_size N ≤ file_size := by
  rw [chunk_size_eq N h]
  have hpos : (0 : Int) < (N : Int) := by exact_mod_cast hN
  exact Int.mul_ediv_self_le (ne_of_gt hpos)

/-- Multiples of the chunk up to the `N`-th stay inside `[0, file_size]`. -/
theorem mul_chunk_bounds {file_size : Int} {N : Nat} (h : 0 ≤ file_size) (hN : 1 ≤ N)
    {k : Nat} (hk : k ≤ N) :
    0 ≤ (k : Int) * chunk_size file_size N ∧ (k : Int) * chunk_size file_size N ≤ file_size := by
  have hc := chunk_size_nonneg N h
  have hm := chunk_size_mul_le h hN
  have hk' : (k : Int) ≤ (N : Int) := by exact_mod_cast hk
  have hk0 : (0 : Int) ≤ (k : Int) := Int.ofNat_nonneg k
  constructor
  · exact mul_nonneg hk0 hc
  · calc (k : Int) * chunk_size file_size N
        ≤ (N : Int) * chunk_size file_size N := mul_le_mul_of_nonneg_right hk' hc
      _ ≤ file_size := hm

/-- Without overflow: `start_byte` is the mathematical product. -/
theorem start_byte_eq {file_size : Int} {N i : Nat} (h0 : 0 < file_size)
    (hl : file_size < 2 ^ 63) (hN : 1 ≤ N) (hi : i < N) :
    start_byte file_size N i = (i : Int) * chunk_size file_size N := by
  unfold start_byte
  have hb := mul_chunk_bounds (le_of_lt h0) hN (le_of_lt hi)
  apply wrap_long_id
  constructor <;> [linarith [hb.1]; linarith [hb.2]]

/-- Without overflow: `end_byte` of a segment before the last. -/
theorem end_byte_eq {file_size : Int} {N i : Nat} (h0 : 0 < file_size)
    (hl : file_size < 2 ^ 63) (hN : 1 ≤ N) (hi : i + 1 < N) :
    end_byte file_size N i = ((i : Int) + 1) * chunk_size file_size N - 1 := by
  unfold end_byte
  have hne : ¬ ((i : Int) = (N : Int) - 1) := by omega
  rw [if_neg hne]
  have hb := mul_chunk_bounds (le_of_lt h0) hN (le_of_lt hi)
  have hcast : ((i + 1 : Nat) : Int) = (i : Int) + 1 := by push_cast; ring
  rw [hcast] at hb
  have h1 : wrap_long (((i : Int) + 1) * chunk_size file_size N)
      = ((i : Int) + 1) * chunk_size file_size N := by
    apply wrap_long_id
    constructor <;> [linarith [hb.1]; linarith [hb.2]]
  rw [h1]
  apply wrap_long_id
  constructor <;> [linarith [hb.1]; linarith [hb.2]]

/-- Without overflow: `end_byte` of the last segment. -/
theorem end_byte_last {file_size : Int} {N : Nat} (h0 : 0 < file_size)
    (hl : file_size < 2 ^ 63) (hN : 1 ≤ N) :
    end_byte file_size N (N - 1) = file_size - 1 := by
  unfold end_byte
  have he : ((N - 1 : Nat) : Int) = (N : Int) - 1 := by omega
  rw [if_pos he]
  apply wrap_long_id
  constructor <;> [linarith; linarith]

/-- Consecutive segments abut: `start_{i+1} = end_i + 1`. -/
theorem start_succ_eq {file_size : Int} {N i : Nat} (h0 : 0 < file_size)
    (hl : file_size < 2 ^ 63) (hN : 1 ≤ N) (hi : i + 1 < N) :
    start_byte file_size N (i + 1) = end_byte file_size N i + 1 := by
  rw [start_byte_eq h0 hl hN hi, end_byte_eq h0 hl hN hi]
  push_cast
  ring

/-- Every planned range lies inside `[0, file_size - 1]` and starts are monotone. -/
theorem segment_bounds {file_size : Int} {N i : Nat} (h0 : 0 < file_size)
    (hl : file_size < 2 ^ 63) (hN : 1 ≤ N) (hi : i < N) :
    0 ≤ start_byte file_size N i ∧ end_byte file_size N i ≤ file_size - 1 := by
  constructor
  · rw [start_byte_eq h0 hl hN hi]
    exact (mul_chunk_bounds (le_of_lt h0) hN (le_of_lt hi)).1
  · by_cases hlast : i + 1 < N
    · rw [end_byte_eq h0 hl hN hlast]
      have hb := mul_chunk_bounds (le_of_lt h0) hN (le_of_lt hlast)
      push_cast at hb
      linarith [hb.2]
    · have hiN : i = N - 1 := by omega
      rw [hiN, end_byte_last h0 hl hN]

/-- The end of segment `i` is below the start of every later segment. -/
theorem end_lt_start {file_size : Int} {N i j : Nat} (h0 : 0 < file_size)
    (hl : file_size < 2 ^ 63) (hN : 1 ≤ N) (hij : i < j) (hj : j < N) :
    end_byte file_size N i < start_byte file_size N j := by
  have hi : i + 1 < N := by omega
  rw [end_byte_eq h0 hl hN hi, start_byte_eq h0 hl hN hj]
  have hc := chunk_size_nonneg N (le_of_lt h0)
  have hle : ((i : Int) + 1) ≤ (j : Int) := by exact_mod_cast hij
  have := mul_le_mul_of_nonneg_right hle hc
  linarith

/-- Every offset of `[0, file_size - 1]` lies in some planned range. -/
theorem segment_cover {file_size : Int} {N : Nat} (h0 : 0 < file_size)
    (hl : file_size < 2 ^ 63) (hN : 1 ≤ N) {x : Int} (hx0 : 0 ≤ x) (hx : x ≤ file_size - 1) :
    ∃ i, i < N ∧ in_range x (start_byte file_size N i, end_byte file_size N i) := by
  have hc := chunk_size_nonneg N (le_of_lt h0)
  have hlastlt : N - 1 < N := by omega
  by_cases hq : chunk_size file_size N = 0 ∨ ((N : Int) - 1) * chunk_size file_size N ≤ x
  · refine ⟨N - 1, hlastlt, ?_, ?_⟩
    · show start_byte file_size N (N - 1) ≤ x
      rw [start_byte_eq h0 hl hN hlastlt]
      have he : ((N - 1 : Nat) : Int) = (N : Int) - 1 := by omega
      rw [he]
      rcases hq with hz | hge
      · rw [hz]; simpa using hx0
      · exact hge
    · show x ≤ end_byte file_size N (N - 1)
      rw [end_byte_last h0 hl hN]
      exact hx
  · push_neg at hq
    obtain ⟨hcne, hlt⟩ := hq
    have hcpos : 0 < chunk_size file_size N := lt_of_le_of_ne hc (Ne.symm hcne)
    have hq0 : 0 ≤ x / chunk_size file_size N := Int.ediv_nonneg hx0 hc
    have hqlt : x / chunk_size file_size N < (N : Int) - 1 := by
      apply Int.ediv_lt_of_lt_mul hcpos
      exact hlt
    obtain ⟨k, hk⟩ := Int.eq_ofNat_of_zero_le hq0
    have hkN : k + 1 < N := by
      have : (k : Int) < (N : Int) - 1 := by rw [← hk]; exact hqlt
      omega
    refine ⟨k, by omega, ?_, ?_⟩
    · show start_byte file_size N k ≤ x
      rw [start_byte_eq h0 hl hN (by omega), ← hk]
      exact Int.ediv_mul_le x (ne_of_gt hcpos)
    · show x ≤ end_byte file_size N k
      rw [end_byte_eq h0 hl hN hkN, ← hk]
      have := Int.lt_ediv_add_one_mul_self x hcpos
      linarith

/-- C1. For every `file_size > 0` that fits a signed 64-bit `long` and every segment
count `N ≥ 1` (in particular `N = THREAD_COUNT = 16`), the plan of `multithread_download`
has exactly `N` ranges, starts at 0, ends at `file_size - 1`, consecutive ranges abut,
the ranges are pairwise disjoint and their union is exactly `[0, file_size - 1]`. -/
theorem segment_plan_partition (file_size : Int) (N : Nat)
    (h0 : 0 < file_size) (hl : file_size < 2 ^ 63) (hN : 1 ≤ N) :
    (segment_plan file_size N).length = N
    ∧ (∀ i, i < N → (segment_plan file_size N)[i]? =
          some (start_byte file_size N i, end_byte file_size N i))
    ∧ chunk_size file_size N = file_size / (N : Int)
    ∧ (∀ i, i < N → start_byte file_size N i = (i : Int) * (file_size / (N : Int)))
    ∧ (∀ i, i + 1 < N →
          end_byte file_size N i = ((i : Int) + 1) * (file_size / (N : Int)) - 1)
    ∧ start_byte file_size N 0 = 0
    ∧ end_byte file_size N (N - 1) = file_size - 1
    ∧ (∀ i, i + 1 < N → start_byte file_size N (i + 1) = end_byte file_size N i + 1)
    ∧ (∀ i j, i < N → j < N → i ≠ j → ∀ x : Int,
          ¬ (in_range x (start_byte file_size N i, end_byte file_size N i)
             ∧ in_range x (start_byte file_size N j, end_byte file_size N j)))
    ∧ (∀ x : Int, (0 ≤ x ∧ x ≤ file_size - 1) ↔
          ∃ i, i < N ∧ in_range x (start_byte file_size N i, end_byte file_size N i)) := by
  have hceq := chunk_size_eq N (le_of_lt h0)
  refine ⟨by simp [segment_plan], ?_, hceq, ?_, ?_, ?_,
    end_byte_last h0 hl hN, fun i hi => start_succ_eq h0 hl hN hi, ?_, ?_⟩
  · intro i hi
    simp [segment_plan, hi]
  · intro i hi
    rw [start_byte_eq h0 hl hN hi, hceq]
  · intro i hi
    rw [end_byte_eq h0 hl hN hi, hceq]
  · rw [start_byte_eq h0 hl hN (by omega)]
    simp
  · intro i j hi hj hij x hboth
    obtain ⟨⟨hsi, hei⟩, ⟨hsj, hej⟩⟩ := hboth
    simp only at hsi hei hsj hej
    rcases Nat.lt_or_gt_of_ne hij with hlt | hgt
    · have := end_lt_start h0 hl hN hlt hj
      linarith
    · have := end_lt_start h0 hl hN hgt hi
      linarith
  · intro x
    constructor
    · rintro ⟨hx0, hx⟩
      exact segment_cover h0 hl hN hx0 hx
    · rintro ⟨i, hi, hs, he⟩
      simp only at hs he
      have hb := segment_bounds h0 hl hN hi
      exact ⟨le_trans hb.1 hs, le_trans he hb.2⟩

/-- C1 at Scenario A of the specification: 1,000,000 bytes in 4 segments give the ranges
`[0, 249999]`, `[250000, 499999]`, `[500000, 749999]`, `[750000, 999999]`. -/
theorem segment_plan_partition_witness :
    ((0 : Int) < 1000000 ∧ (1000000 : Int) < 2 ^ 63 ∧ 1 ≤ 4)
    ∧ segment_plan 1000000 4
        = [(0, 249999), (250000, 499999), (500000, 749999), (750000, 999999)]
    ∧ ((segment_plan 1000000 4).length = 4
      ∧ (∀ i, i < 4 → (segment_plan 1000000 4)[i]? =
            some (start_byte 1000000 4 i, end_byte 1000000 4 i))
      ∧ chunk_size 1000000 4 = 1000000 / ((4 : Nat) : Int)
      ∧ (∀ i, i < 4 → start_byte 1000000 4 i = (i : Int) * (1000000 / ((4 : Nat) : Int)))
      ∧ (∀ i, i + 1 < 4 →
            end_byte 1000000 4 i = ((i : Int) + 1) * (1000000 / ((4 : Nat) : Int)) - 1)
      ∧ start_byte 1000000 4 0 = 0
      ∧ end_byte 1000000 4 (4 - 1) = 1000000 - 1
      ∧ (∀ i, i + 1 < 4 → start_byte 1000000 4 (i + 1) = end_byte 1000000 4 i + 1)
      ∧ (∀ i j, i < 4 → j < 4 → i ≠ j → ∀ x : Int,
            ¬ (in_range x (start_byte 1000000 4 i, end_byte 1000000 4 i)
               ∧ in_range x (start_byte 1000000 4 j, end_byte 1000000 4 j)))
      ∧ (∀ x : Int, (0 ≤ x ∧ x ≤ 1000000 - 1) ↔
            ∃ i, i < 4 ∧ in_range x (start_byte 1000000 4 i, end_byte 1000000 4 i))) :=
  ⟨by decide, by decide,
    segment_plan_partition 1000000 4 (by decide) (by decide) (by decide)⟩

/-! ### `extract_filename` -/

theorem strrchr_eq_none {c : Char} : ∀ {s : CStr}, c ∉ s → strrchr s c = none
  | [], _ => rfl
  | x :: xs, h => by
    have hx : ¬ x = c := fun e => h (by simp [e])
    have hxs : c ∉ xs := fun e => h (List.mem_cons_of_mem _ e)
    simp [strrchr, strrchr_eq_none hxs, hx]

theorem strrchr_append {c : Char} {suf : CStr} (h : c ∉ suf) :
    ∀ pre : CStr, strrchr (pre ++ c :: suf) c = some pre.length
  | [] => by simp [strrchr, strrchr_eq_none h]
  | x :: pre => by simp [strrchr, strrchr_append h pre]

theorem take_strchr (c : Char) : ∀ s : CStr,
    (match strchr s c with
      | some q => s.take q
      | none => s) = s.takeWhile (fun x => decide (x ≠ c))
  | [] => rfl
  | x :: xs => by
    by_cases hx : x = c
    · simp [strchr, hx, List.takeWhile]
    · have ih := take_strchr c xs
      cases hq : strchr xs c with
      | none =>
        rw [hq] at ih
        simp only at ih
        simp only [strchr, hx, hq, if_false, Option.map_none']
        rw [List.takeWhile_cons_of_pos (by simpa using hx), ← ih]
      | some q =>
        rw [hq] at ih
        simp only at ih
        simp only [strchr, hx, hq, if_false, Option.map_some', List.take_succ_cons]
        rw [List.takeWhile_cons_of_pos (by simpa using hx), ← ih]

/-- Split of a string at the last occurrence of a character. -/
theorem last_split {c : Char} : ∀ {s : CStr}, c ∈ s →
    ∃ pre suf, s = pre ++ c :: suf ∧ c ∉ suf
  | [], h => by simp at h
  | x :: xs, h => by
    by_cases hxs : c ∈ xs
    · obtain ⟨pre, suf, he, hn⟩ := last_split hxs
      exact ⟨x :: pre, suf, by simp [he], hn⟩
    · have hx : c = x := by
        rcases List.mem_cons.mp h with e | e
        · exact e
        · exact absurd e hxs
      exact ⟨[], xs, by simp [hx], hxs⟩

theorem extract_filename_no_slash {u : CStr} (h : '/' ∉ u) : extract_filename u = some u := by
  simp [extract_filename, strrchr_eq_none h]

theorem extract_filename_split {pre suf : CStr} (h : '/' ∉ suf) :
    extract_filename (pre ++ '/' :: suf) =
      if suf = [] then none else some (suf.takeWhile (fun x => decide (x ≠ '?'))) := by
  have hd : List.drop (pre.length + 1) (pre ++ '/' :: suf) = suf := by
    rw [show pre ++ '/' :: suf = (pre ++ ['/']) ++ suf by simp]
    exact List.drop_left' (by simp)
  unfold extract_filename
  rw [strrchr_append h pre]
  simp only [hd]
  by_cases hs : suf = []
  · simp [hs]
  · rw [if_neg hs, if_neg hs]
    have := take_strchr '?' suf
    cases hq : strchr suf '?' with
    | none => rw [hq] at this; exact congrArg some this
    | some q => rw [hq] at this; exact congrArg some this

/-- C10. `extract_filename(u)` is NULL exactly when `u` is non-empty and ends in `/`;
without a `/` it is `u`; otherwise it is the text after the last `/` up to (not
including) the first `?` of that text. With a `/` in `u`, a non-NULL result contains
neither `/` nor `?` and is a contiguous substring of `u`. -/
theorem extract_filename_spec (u : CStr) :
    (extract_filename u = none ↔ (u ≠ [] ∧ u.getLast? = some '/'))
    ∧ ('/' ∉ u → extract_filename u = some u)
    ∧ (∀ pre suf : CStr, u = pre ++ '/' :: suf → '/' ∉ suf → suf ≠ [] →
        extract_filename u = some (suf.takeWhile (fun x => decide (x ≠ '?'))))
    ∧ (∀ r : CStr, '/' ∈ u → extract_filename u = some r →
        '/' ∉ r ∧ '?' ∉ r ∧ r <:+: u) := by
  refine ⟨?_, extract_filename_no_slash, ?_, ?_⟩
  · by_cases hm : '/' ∈ u
    · obtain ⟨pre, suf, he, hn⟩ := last_split hm
      subst he
      rw [extract_filename_split hn]
      by_cases hs : suf = []
      · subst hs
        simp
      · have hne : pre ++ '/' :: suf ≠ [] := by simp
        have hlast : (pre ++ '/' :: suf).getLast? = suf.getLast? := by
          rw [show pre ++ '/' :: suf = (pre ++ ['/']) ++ suf by simp]
          exact List.getLast?_append_of_ne_nil _ hs
        rw [if_neg hs, hlast]
        constructor
        · intro h; cases h
        · rintro ⟨_, hl⟩
          exact absurd (List.mem_of_getLast?_eq_some hl) hn
    · rw [extract_filename_no_slash hm]
      constructor
      · intro h; cases h
      · rintro ⟨_, hl⟩
        exact absurd (List.mem_of_getLast?_eq_some hl) hm
  · intro pre suf he hn hs
    rw [he, extract_filename_split hn, if_neg hs]
  · intro r hm hr
    obtain ⟨pre, suf, he, hn⟩ := last_split hm
    subst he
    rw [extract_filename_split hn] at hr
    by_cases hs : suf = []
    · rw [if_pos hs] at hr; cases hr
    · rw [if_neg hs] at hr
      have hr' : r = suf.takeWhile (fun x => decide (x ≠ '?')) := by
        injection hr with h; exact h.symm
      have hpre : r <+: suf := by rw [hr']; exact List.takeWhile_prefix _
      refine ⟨fun h => hn (hpre.subset h), ?_, ?_⟩
      · intro h
        rw [hr'] at h
        have := List.mem_takeWhile_imp h
        simp at this
      · obtain ⟨t, ht⟩ := hpre
        exact ⟨pre ++ ['/'], t, by simp [ht]⟩

/-! ### `%d` is injective -/

theorem digit_value_digitChar : ∀ d : Nat, d < 10 → (Nat.digitChar d).toNat - 48 = d := by
  decide

theorem digits_value_foldl (cs : List Char) : ∀ a : Nat,
    cs.foldl (fun acc c => 10 * acc + (c.toNat - 48)) a
      = a * 10 ^ cs.length + digits_value cs := by
  induction cs with
  | nil => intro a; simp [digits_value]
  | cons c cs ih =>
    intro a
    unfold digits_value
    simp only [List.foldl_cons, List.length_cons]
    rw [ih (10 * a + (c.toNat - 48)), ih (10 * 0 + (c.toNat - 48))]
    ring

theorem digits_value_cons (c : Char) (cs : List Char) :
    digits_value (c :: cs) = (c.toNat - 48) * 10 ^ cs.length + digits_value cs := by
  have := digits_value_foldl cs (10 * 0 + (c.toNat - 48))
  unfold digits_value at this ⊢
  simp only [List.foldl_cons]
  rw [this]
  ring

theorem digits_value_toDigitsCore : ∀ (fuel n : Nat) (ds : List Char), n < fuel →
    digits_value (Nat.toDigitsCore 10 fuel n ds) = n * 10 ^ ds.length + digits_value ds := by
  intro fuel
  induction fuel with
  | zero => intro n ds h; omega
  | succ fuel ih =>
    intro n ds h
    have hd : (Nat.digitChar (n % 10)).toNat - 48 = n % 10 :=
      digit_value_digitChar _ (Nat.mod_lt _ (by decide))
    unfold Nat.toDigitsCore
    simp only
    by_cases hz : n / 10 = 0
    · rw [if_pos hz, digits_value_cons, hd]
      have : n % 10 = n := by omega
      rw [this]
    · rw [if_neg hz, ih (n / 10) _ (by omega), digits_value_cons, hd]
      simp only [List.length_cons]
      have hn : n = 10 * (n / 10) + n % 10 := (Nat.div_add_mod n 10).symm
      conv_rhs => rw [hn]
      ring

theorem digits_value_toDigits (n : Nat) : digits_value (Nat.toDigits 10 n) = n := by
  unfold Nat.toDigits
  rw [digits_value_toDigitsCore _ _ _ (Nat.lt_succ_self n)]
  simp [digits_value]

/-- Distinct segment indices are printed differently by `%d`. -/
theorem fmt_d_injective {i j : Nat} (h : fmt_d (i : Int) = fmt_d (j : Int)) : i = j := by
  have hi : ¬ ((i : Int) < 0) := by omega
  have hj : ¬ ((j : Int) < 0) := by omega
  unfold fmt_d at h
  rw [if_neg hi, if_neg hj] at h
  simp only [Int.natAbs_ofNat] at h
  have := congrArg digits_value h
  rwa [digits_value_toDigits, digits_value_toDigits] at this

theorem part_text_injective {filename : CStr} {i j : Nat}
    (h : part_text filename i = part_text filename j) : i = j := by
  unfold part_text at h
  exact fmt_d_injective (List.append_cancel_left h)

theorem part_text_ne (filename : CStr) (i : Nat) : part_text filename i ≠ filename := by
  intro h
  have := congrArg List.length h
  simp [part_text] at this

theorem snprintf_fits {size : Nat} {s : CStr} (h : s.length < size) : snprintf size s = s := by
  unfold snprintf
  exact List.take_of_length_le (by omega)

theorem part_filename_fits {PATH_MAX : Nat} {filename : CStr} {i : Nat}
    (h : (part_text filename i).length < PATH_MAX) :
    part_filename PATH_MAX filename i = part_text filename i :=
  snprintf_fits h

/-! ### File-system lemmas -/

theorem fwrite_nil (fs : FS) (p : CStr) : fwrite fs p [] = fs := by
  funext q
  unfold fwrite
  by_cases h : q = p
  · subst h
    cases hq : fs q <;> simp [hq]
  · simp [h]

theorem fwrite_fwrite (fs : FS) (p : CStr) (a b : Bytes) :
    fwrite (fwrite fs p a) p b = fwrite fs p (a ++ b) := by
  funext q
  unfold fwrite
  by_cases h : q = p
  · subst h
    cases hq : fs q <;> simp [hq]
  · simp [h]

/-- The copy loop appends the whole input to the output, whatever the buffer size. -/
theorem copy_loop_eq {bufsize : Nat} (hb : 0 < bufsize) (output : CStr) :
    ∀ (n : Nat) (input : Bytes) (fs : FS), input.length ≤ n →
      copy_loop bufsize output input fs = fwrite fs output input := by
  intro n
  induction n with
  | zero =>
    intro input fs hlen
    have : input = [] := List.length_eq_zero.mp (Nat.le_zero.mp hlen)
    subst this
    rw [copy_loop]
    simp [fwrite_nil]
  | succ n ih =>
    intro input fs hlen
    rw [copy_loop]
    by_cases h : input.take bufsize = []
    · rw [dif_pos h]
      have hi : input = [] := by
        rcases List.take_eq_nil_iff.mp h with h0 | h0
        · omega
        · exact h0
      subst hi
      exact (fwrite_nil fs output).symm
    · rw [dif_neg h]
      have hi : input ≠ [] := by
        intro h0
        apply h
        simp [h0]
      have hpos : 0 < input.length := List.length_pos.mpr hi
      have hdrop : (input.drop bufsize).length ≤ n := by
        simp only [List.length_drop]
        omega
      rw [ih _ _ hdrop, fwrite_fwrite, List.take_append_drop]

/-! ### `merge_files` -/

/-- State of the merge loop after the part files `0 .. k-1`. -/
theorem merge_loop_spec (PATH_MAX : Nat) (filename : CStr) (fs : FS) :
    ∀ k : Nat, (∀ i, i < k → (part_text filename i).length < PATH_MAX) →
      let r := (List.range k).foldl (merge_step PATH_MAX filename) (fopen_wb fs filename, 1)
      r.1 filename = some ((List.range k).flatMap (fun i => (fs (part_text filename i)).getD []))
      ∧ (∀ i, i < k → r.1 (part_text filename i) = none)
      ∧ (∀ p, p ≠ filename → (∀ i, i < k → p ≠ part_text filename i) → r.1 p = fs p)
      ∧ (r.2 = 1 ∨ r.2 = 0)
      ∧ (r.2 = 1 ↔ ∀ i, i < k → (fs (part_text filename i)).isSome = true) := by
  intro k
  induction k with
  | zero =>
    intro _
    refine ⟨by simp [fopen_wb], by simp, ?_, by simp, by simp⟩
    intro p hp _
    simp [fopen_wb, hp]
  | succ k ih =>
    intro hfit
    have hfitk : ∀ i, i < k → (part_text filename i).length < PATH_MAX :=
      fun i hi => hfit i (Nat.lt_succ_of_lt hi)
    obtain ⟨hout, hgone, hframe, hret, hiff⟩ := ih hfitk
    have hname : part_filename PATH_MAX filename k = part_text filename k :=
      part_filename_fits (hfit k (Nat.lt_succ_self k))
    have hne : part_text filename k ≠ filename := part_text_ne filename k
    have hne' : filename ≠ part_text filename k := fun e => hne e.symm
    have hcur := hframe (part_text filename k) hne
      (fun i hi e => absurd (part_text_injective e) (by omega))
    simp only [List.range_succ, List.foldl_append, List.foldl_cons, List.foldl_nil,
      List.flatMap_append, List.flatMap_cons, List.flatMap_nil, List.append_nil]
    generalize (List.range k).foldl (merge_step PATH_MAX filename) (fopen_wb fs filename, 1) = r
      at hout hgone hframe hret hiff hcur ⊢
    unfold merge_step
    rw [hname, hcur]
    cases hc : fs (part_text filename k) with
    | none =>
      simp only [Option.getD_none, List.append_nil]
      refine ⟨hout, ?_, ?_, by simp, ?_⟩
      · intro i hi
        rcases Nat.lt_succ_iff_lt_or_eq.mp hi with h | h
        · exact hgone i h
        · rw [h, hcur, hc]
      · intro p hp hall
        exact hframe p hp (fun i hi => hall i (Nat.lt_succ_of_lt hi))
      · constructor
        · intro h; simp at h
        · intro h
          have := h k (Nat.lt_succ_self k)
          rw [hc] at this
          simp at this
    | some content =>
      simp only [Option.getD_some]
      rw [copy_loop_eq (by decide) filename content.length content r.1 le_rfl]
      refine ⟨?_, ?_, ?_, hret, ?_⟩
      · simp [remove, fwrite, hne', hout]
      · intro i hi
        rcases Nat.lt_succ_iff_lt_or_eq.mp hi with h | h
        · have hik : part_text filename i ≠ part_text filename k :=
            fun e => absurd (part_text_injective e) (by omega)
          have hif : part_text filename i ≠ filename := part_text_ne filename i
          simp [remove, fwrite, hik, hif, hgone i h]
        · simp [remove, h]
      · intro p hp hall
        have hpk : p ≠ part_text filename k := hall k (Nat.lt_succ_self k)
        simp only [remove, fwrite, hpk, hp, if_false]
        exact hframe p hp (fun i hi => hall i (Nat.lt_succ_of_lt hi))
      · rw [hiff]
        constructor
        · intro h i hi
          rcases Nat.lt_succ_iff_lt_or_eq.mp hi with h' | h'
          · exact h i h'
          · rw [h', hc]; rfl
        · intro h i hi
          exact h i (Nat.lt_succ_of_lt hi)

/-- The slices of a chain of abutting ranges starting at 0 concatenate to an initial
segment of the resource. -/
theorem slice_chain (resource : Bytes) (ranges : Nat → Int × Int) :
    ∀ k : Nat, (0 < k → (ranges 0).1 = 0) →
      (∀ i, i + 1 < k → (ranges (i + 1)).1 = (ranges i).2 + 1) →
      (∀ i, i < k → (ranges i).1 ≤ (ranges i).2 + 1) →
      (0 ≤ if k = 0 then (0 : Int) else (ranges (k - 1)).2 + 1)
      ∧ (List.range k).flatMap (fun i => slice resource (ranges i))
          = resource.take (if k = 0 then (0 : Int) else (ranges (k - 1)).2 + 1).toNat := by
  intro k
  induction k with
  | zero => intro _ _ _; simp
  | succ k ih =>
    intro h0 hchain hle
    obtain ⟨hnn, hk⟩ := ih (fun hk => h0 (Nat.succ_pos k))
      (fun i hi => hchain i (by omega)) (fun i hi => hle i (by omega))
    have hstart : (ranges k).1 = if k = 0 then (0 : Int) else (ranges (k - 1)).2 + 1 := by
      by_cases hz : k = 0
      · subst hz
        simpa using h0 (by decide)
      · rw [if_neg hz]
        have := hchain (k - 1) (by omega)
        rwa [Nat.sub_add_cancel (Nat.one_le_iff_ne_zero.mpr hz)] at this
    rw [← hstart] at hnn hk
    have hlek := hle k (Nat.lt_succ_self k)
    simp only [List.range_succ, List.flatMap_append, List.flatMap_cons, List.flatMap_nil,
      List.append_nil, hk, Nat.succ_ne_zero, if_false, Nat.add_sub_cancel]
    refine ⟨by omega, ?_⟩
    unfold slice
    have hsplit : ((ranges k).2 + 1).toNat
        = (ranges k).1.toNat + ((ranges k).2 + 1 - (ranges k).1).toNat := by omega
    rw [hsplit, List.take_add]

/-- C4 (as amended). When the output file can be opened and every part name
`<filename>.part<i>`, `i < thread_count`, fits the `PATH_MAX` buffer, `merge_files` leaves
in the output file the concatenation, in increasing index order, of the full contents of
the part files that exist, and returns 1 exactly when all of them exist, 0 otherwise.
So when part `i` holds exactly the bytes `[start_i, end_i]` of a resource and the ranges
partition it, the output is the resource. -/
theorem merge_files_content (PATH_MAX : Nat) (can_create : CStr → Bool) (fs : FS)
    (filename : CStr) (thread_count : Int)
    (hopen : can_create filename = true)
    (hfit : ∀ i : Nat, (i : Int) < thread_count → (part_text filename i).length < PATH_MAX) :
    (merge_files PATH_MAX can_create fs filename thread_count).1 filename
        = some ((List.range thread_count.toNat).flatMap
            (fun i => (fs (part_text filename i)).getD []))
    ∧ ((merge_files PATH_MAX can_create fs filename thread_count).2 = 1 ↔
        ∀ i : Nat, (i : Int) < thread_count → (fs (part_text filename i)).isSome = true)
    ∧ ((merge_files PATH_MAX can_create fs filename thread_count).2 = 1
        ∨ (merge_files PATH_MAX can_create fs filename thread_count).2 = 0)
    ∧ (∀ (resource : Bytes) (ranges : Nat → Int × Int),
        0 < thread_count → (ranges 0).1 = 0 →
        (∀ i : Nat, (i : Int) + 1 < thread_count → (ranges (i + 1)).1 = (ranges i).2 + 1) →
        (∀ i : Nat, (i : Int) < thread_count → (ranges i).1 ≤ (ranges i).2 + 1) →
        (ranges (thread_count.toNat - 1)).2 = (resource.length : Int) - 1 →
        (∀ i : Nat, (i : Int) < thread_count →
          fs (part_text filename i) = some (slice resource (ranges i))) →
        (merge_files PATH_MAX can_create fs filename thread_count).1 filename
          = some resource) := by
  have hlt : ∀ i : Nat, i < thread_count.toNat ↔ (i : Int) < thread_count := by
    intro i; omega
  obtain ⟨hout, -, -, hret, hiff⟩ :=
    merge_loop_spec PATH_MAX filename fs thread_count.toNat
      (fun i hi => hfit i ((hlt i).mp hi))
  have hm : merge_files PATH_MAX can_create fs filename thread_count
      = (List.range thread_count.toNat).foldl (merge_step PATH_MAX filename)
          (fopen_wb fs filename, 1) := by
    unfold merge_files
    rw [if_pos hopen]
  rw [hm]
  refine ⟨hout, ?_, hret, ?_⟩
  · rw [hiff]
    exact ⟨fun h i hi => h i ((hlt i).mpr hi), fun h i hi => h i ((hlt i).mp hi)⟩
  · intro resource ranges hN h0 hchain hle hend hparts
    rw [hout]
    have hflat : (List.range thread_count.toNat).flatMap
          (fun i => (fs (part_text filename i)).getD [])
        = (List.range thread_count.toNat).flatMap (fun i => slice resource (ranges i)) := by
      apply List.flatMap_congr
      intro i hi
      rw [hparts i ((hlt i).mp (List.mem_range.mp hi))]
      rfl
    obtain ⟨-, hk⟩ := slice_chain resource ranges thread_count.toNat (fun _ => h0)
      (fun i hi => hchain i (by omega)) (fun i hi => hle i ((hlt i).mp hi))
    have hnz : ¬ thread_count.toNat = 0 := by omega
    rw [hflat, hk, if_neg hnz, hend]
    congr 1
    apply List.take_of_length_le
    omega

/-- C4 at a concrete input: two part files, both holding a slice of `[1, 2, 3]`. -/
theorem merge_files_content_witness :
    (fun _ : CStr => true) "out".toList = true
    ∧ (∀ i : Nat, (i : Int) < 2 → (part_text "out".toList i).length < 4096)
    ∧ (merge_files 4096 (fun _ => true) demo_fs "out".toList 2).1 "out".toList
        = some ((List.range (2 : Int).toNat).flatMap
            (fun i => (demo_fs (part_text "out".toList i)).getD []))
    ∧ (List.range (2 : Int).toNat).flatMap
            (fun i => (demo_fs (part_text "out".toList i)).getD []) = [1, 2, 3]
    ∧ demo_fs (part_text "out".toList 0) = some (slice [1, 2, 3] (0, 1))
    ∧ demo_fs (part_text "out".toList 1) = some (slice [1, 2, 3] (2, 2))
    ∧ (merge_files 4096 (fun _ => true) demo_fs "out".toList 2).1 "out".toList
        = some [1, 2, 3] :=
  have hfit : ∀ i : Nat, (i : Int) < 2 → (part_text "out".toList i).length < 4096 := by
    intro i hi
    have hi2 : i < 2 := by omega
    interval_cases i <;> decide
  ⟨rfl, hfit,
    (merge_files_content 4096 (fun _ => true) demo_fs "out".toList 2 rfl hfit).1,
    by decide, by decide, by decide,
    (merge_files_content 4096 (fun _ => true) demo_fs "out".toList 2 rfl hfit).2.2.2
      [1, 2, 3] (fun i => if i = 0 then (0, 1) else (2, 2)) (by decide) rfl
      (fun i hi => by
        have h0 : i = 0 := by omega
        subst h0
        decide)
      (fun i hi => by
        have hi2 : i < 2 := by omega
        interval_cases i <;> decide)
      (by decide)
      (fun i hi => by
        have hi2 : i < 2 := by omega
        interval_cases i <;> decide)⟩

/-- C8 (as amended). When the output file can be opened and every part name
`<filename>.part<i>`, `i < thread_count`, fits the `PATH_MAX` buffer, then after
`merge_files` (whatever it returns) none of those part paths exists, and every path other
than the output path and the part paths is as before the call. -/
theorem merge_files_frame (PATH_MAX : Nat) (can_create : CStr → Bool) (fs : FS)
    (filename : CStr) (thread_count : Int)
    (hopen : can_create filename = true)
    (hfit : ∀ i : Nat, (i : Int) < thread_count → (part_text filename i).length < PATH_MAX) :
    ((merge_files PATH_MAX can_create fs filename thread_count).2 = 1
        ∨ (merge_files PATH_MAX can_create fs filename thread_count).2 = 0)
    ∧ (∀ i : Nat, (i : Int) < thread_count →
        (merge_files PATH_MAX can_create fs filename thread_count).1 (part_text filename i)
          = none)
    ∧ (∀ p : CStr, p ≠ filename →
        (∀ i : Nat, (i : Int) < thread_count → p ≠ part_text filename i) →
        (merge_files PATH_MAX can_create fs filename thread_count).1 p = fs p) := by
  have hlt : ∀ i : Nat, i < thread_count.toNat ↔ (i : Int) < thread_count := by
    intro i; omega
  obtain ⟨-, hgone, hframe, hret, -⟩ :=
    merge_loop_spec PATH_MAX filename fs thread_count.toNat
      (fun i hi => hfit i ((hlt i).mp hi))
  have hm : merge_files PATH_MAX can_create fs filename thread_count
      = (List.range thread_count.toNat).foldl (merge_step PATH_MAX filename)
          (fopen_wb fs filename, 1) := by
    unfold merge_files
    rw [if_pos hopen]
  rw [hm]
  exact ⟨hret, fun i hi => hgone i ((hlt i).mpr hi),
    fun p hp hall => hframe p hp (fun i hi => hall i ((hlt i).mp hi))⟩

/-- C8 at a concrete input: after merging two parts, `out.part0` is gone. -/
theorem merge_files_frame_witness :
    (fun _ : CStr => true) "out".toList = true
    ∧ (∀ i : Nat, (i : Int) < 2 → (part_text "out".toList i).length < 4096)
    ∧ demo_fs (part_text "out".toList 0) = some [1, 2]
    ∧ (merge_files 4096 (fun _ => true) demo_fs "out".toList 2).1
        (part_text "out".toList 0) = none :=
  have hfit : ∀ i : Nat, (i : Int) < 2 → (part_text "out".toList i).length < 4096 := by
    intro i hi
    have hi2 : i < 2 := by omega
    interval_cases i <;> decide
  ⟨rfl, hfit, by decide,
    (merge_files_frame 4096 (fun _ => true) demo_fs "out".toList 2 rfl hfit).2.1 0
      (by decide)⟩

/-! ### Part names longer than the `PATH_MAX` buffer -/

theorem flatten_replicate_length (l : CStr) : ∀ n : Nat,
    ((List.replicate n l).flatten).length = n * l.length
  | 0 => by simp
  | n + 1 => by
    rw [List.replicate_succ, List.flatten_cons, List.length_append,
      flatten_replicate_length l n]
    ring

theorem long_name_length : long_name.length = 4090 := by
  unfold long_name
  rw [flatten_replicate_length]
  rfl

/-- With a 4090-character `filename`, `snprintf` cuts the index off the part name. -/
theorem part_filename_long (i : Nat) :
    part_filename 4096 long_name i = long_name ++ ".part".toList := by
  unfold part_filename snprintf part_text
  apply List.take_left'
  rw [List.length_append, long_name_length]
  rfl

theorem cut_name_ne_long_name : long_name ++ ".part".toList ≠ long_name := by
  intro h
  have := congrArg List.length h
  simp at this

theorem cut_name_ne_part_text (i : Nat) :
    long_name ++ ".part".toList ≠ part_text long_name i := by
  intro h
  unfold part_text at h
  have hnil : fmt_d (i : Int) = [] := List.self_eq_append_right.mp h
  have hi : digits_value (fmt_d (i : Int)) = i := by
    unfold fmt_d
    rw [if_neg (by omega)]
    exact digits_value_toDigits i
  rw [hnil] at hi
  have hi0 : i = 0 := by simpa [digits_value] using hi.symm
  rw [hi0] at hnil
  revert hnil
  decide

/-- The merge of one segment for the 4090-character name. -/
theorem merge_files_long :
    merge_files 4096 (fun _ => true) cut_fs long_name 1
      = (remove (fwrite (fopen_wb cut_fs long_name) long_name [7])
          (long_name ++ ".part".toList), 1) := by
  have hcur : fopen_wb cut_fs long_name (long_name ++ ".part".toList) = some [7] := by
    simp [fopen_wb, cut_fs, cut_name_ne_long_name]
  unfold merge_files
  simp only [if_true, Int.toNat_one, show List.range 1 = [0] from rfl, List.foldl_cons,
    List.foldl_nil]
  unfold merge_step
  simp only [part_filename_long, hcur]
  rw [copy_loop_eq (by decide) long_name 1 [7] _ (by simp)]

/-- C4 as stated fails for a name that does not fit the buffer: with `PATH_MAX = 4096`,
the 4090-character output path `long_name` and one segment, the file
`<filename>.part0` does not exist, yet `merge_files` returns 1 and the output holds
the bytes of another file (the name cut to 4095 characters) instead of nothing. -/
theorem merge_files_content_counterexample :
    (merge_files 4096 (fun _ => true) cut_fs long_name 1).2 = 1
    ∧ cut_fs (part_text long_name 0) = none
    ∧ ¬ ((merge_files 4096 (fun _ => true) cut_fs long_name 1).2 = 1 ↔
          ∀ i : Nat, (i : Int) < 1 → (cut_fs (part_text long_name i)).isSome = true)
    ∧ (merge_files 4096 (fun _ => true) cut_fs long_name 1).1 long_name = some [7]
    ∧ (List.range (1 : Int).toNat).flatMap
          (fun i => (cut_fs (part_text long_name i)).getD []) = []
    ∧ (merge_files 4096 (fun _ => true) cut_fs long_name 1).1 long_name
        ≠ some ((List.range (1 : Int).toNat).flatMap
            (fun i => (cut_fs (part_text long_name i)).getD [])) := by
  have hnone : cut_fs (part_text long_name 0) = none := by
    unfold cut_fs
    rw [if_neg (fun e => cut_name_ne_part_text 0 e.symm)]
  have hout : (merge_files 4096 (fun _ => true) cut_fs long_name 1).1 long_name
      = some [7] := by
    rw [merge_files_long]
    simp [remove, fwrite, fopen_wb, cut_name_ne_long_name.symm]
  have hflat : (List.range (1 : Int).toNat).flatMap
      (fun i => (cut_fs (part_text long_name i)).getD []) = [] := by
    simp [show List.range 1 = [0] from rfl, hnone]
  refine ⟨by rw [merge_files_long], hnone, ?_, hout, hflat, ?_⟩
  · rw [merge_files_long]
    intro h
    have := h.mp rfl 0 (by decide)
    rw [hnone] at this
    simp at this
  · rw [hout, hflat]
    decide

/-- C8 as stated fails for a name that does not fit the buffer: with `PATH_MAX = 4096`
and the 4090-character output path `long_name`, a path that is neither the output nor
`<filename>.part0` exists before `merge_files(filename, 1)` and not after it. -/
theorem merge_files_frame_counterexample :
    long_name ++ ".part".toList ≠ long_name
    ∧ (∀ i : Nat, (i : Int) < 1 → long_name ++ ".part".toList ≠ part_text long_name i)
    ∧ cut_fs (long_name ++ ".part".toList) = some [7]
    ∧ (merge_files 4096 (fun _ => true) cut_fs long_name 1).1 (long_name ++ ".part".toList)
        = none := by
  refine ⟨cut_name_ne_long_name, fun i _ => cut_name_ne_part_text i, by simp [cut_fs], ?_⟩
  rw [merge_files_long]
  simp [remove]

/-! ### `download_thread` -/

theorem reports_done_done (a b : CStr) :
    reports_done ("完成 (".toList ++ a ++ b) = true ∧
    reports_failed ("完成 (".toList ++ a ++ b) = false := by
  have h1 : "完成 (".toList = ['完', '成', ' ', '('] := by decide
  have h2 : "完成".toList = ['完', '成'] := by decide
  have h3 : "失败".toList = ['失', '败'] := by decide
  simp [reports_done, reports_failed, h1, h2, h3, List.isPrefixOf]

theorem reports_failed_failed (a b : CStr) :
    reports_done ("失败 (".toList ++ a ++ b) = false ∧
    reports_failed ("失败 (".toList ++ a ++ b) = true := by
  have h1 : "失败 (".toList = ['失', '败', ' ', '('] := by decide
  have h2 : "完成".toList = ['完', '成'] := by decide
  have h3 : "失败".toList = ['失', '败'] := by decide
  simp [reports_done, reports_failed, h1, h2, h3, List.isPrefixOf]

theorem segment_accepted_iff (curl_res : Nat) (http_status : Int) :
    segment_accepted curl_res http_status = true ↔
      curl_res = 0 ∧ (http_status = 200 ∨ http_status = 206) := by
  simp [segment_accepted]

/-- The result of `download_thread` when the temp file and the handle were created. -/
theorem download_thread_status (env : Env) (filename : CStr) (data : ThreadData) (st : State)
    (hfile : env.can_create (part_filename env.PATH_MAX filename data.thread_id) = true)
    (hcurl : env.seg_init data.thread_id = true) :
    (download_thread env filename data st).1.status =
      if segment_accepted (env.seg data.thread_id).curl_res
          (env.seg data.thread_id).http_status then
        "完成 (".toList ++ env.fmt_kbps (env.seg data.thread_id).speed ++ " KB/s)".toList
      else "失败 (".toList ++ env.strerror (env.seg data.thread_id).curl_res ++ ")".toList := by
  unfold download_thread
  simp only [hfile, hcurl, if_true]

/-- C5 (as amended). For a segment fetch whose temp file and transfer handle were
created, `download_thread` reports the segment as done (`完成`) if and only if the
transport result is `CURLE_OK` and the HTTP status is 200 or 206, whatever the number of
segments; otherwise it reports it as failed (`失败`). It stores both values in the
`ThreadData`. -/
theorem download_thread_verdict (env : Env) (filename : CStr) (data : ThreadData) (st : State)
    (hfile : env.can_create (part_filename env.PATH_MAX filename data.thread_id) = true)
    (hcurl : env.seg_init data.thread_id = true) :
    (reports_done (download_thread env filename data st).1.status = true ↔
        (env.seg data.thread_id).curl_res = 0 ∧
          ((env.seg data.thread_id).http_status = 200 ∨
           (env.seg data.thread_id).http_status = 206))
    ∧ (reports_failed (download_thread env filename data st).1.status = true ↔
        ¬ ((env.seg data.thread_id).curl_res = 0 ∧
          ((env.seg data.thread_id).http_status = 200 ∨
           (env.seg data.thread_id).http_status = 206)))
    ∧ (download_thread env filename data st).1.curl_res = (env.seg data.thread_id).curl_res
    ∧ (download_thread env filename data st).1.http_status
        = (env.seg data.thread_id).http_status := by
  rw [download_thread_status env filename data st hfile hcurl,
    ← segment_accepted_iff]
  refine ⟨?_, ?_, ?_, ?_⟩
  · by_cases h : segment_accepted (env.seg data.thread_id).curl_res
        (env.seg data.thread_id).http_status = true
    · rw [if_pos h, (reports_done_done _ _).1]
      simp [h]
    · rw [if_neg h, (reports_failed_failed _ _).1]
      simp [h]
  · by_cases h : segment_accepted (env.seg data.thread_id).curl_res
        (env.seg data.thread_id).http_status = true
    · rw [if_pos h, (reports_done_done _ _).2]
      simp [h]
    · rw [if_neg h, (reports_failed_failed _ _).2]
      simp [h]
  · unfold download_thread
    simp only [hfile, hcurl, if_true]
  · unfold download_thread
    simp only [hfile, hcurl, if_true]

/-- C5 at a concrete input: segment 1 answered with 206 is reported done. -/
theorem download_thread_verdict_witness :
    (sample_env 1000000 partial_content).can_create
        (part_filename (sample_env 1000000 partial_content).PATH_MAX "out".toList
          (spawn_data (sample_env 1000000 partial_content) 1000000 1).thread_id) = true
    ∧ (sample_env 1000000 partial_content).seg_init
        (spawn_data (sample_env 1000000 partial_content) 1000000 1).thread_id = true
    ∧ reports_done (download_thread (sample_env 1000000 partial_content) "out".toList
        (spawn_data (sample_env 1000000 partial_content) 1000000 1) empty_state).1.status
        = true :=
  ⟨rfl, rfl,
    (download_thread_verdict (sample_env 1000000 partial_content) "out".toList
      (spawn_data (sample_env 1000000 partial_content) 1000000 1) empty_state rfl rfl).1.mpr
      (by decide)⟩

/-- C5 as stated fails: in a download of 16 segments, segment 3 is answered with
status 200 (the server ignored the range); it is not the sole segment, and
`download_thread` reports it done. -/
theorem download_thread_verdict_counterexample :
    THREAD_COUNT = 16
    ∧ (ignores_range 3).curl_res = 0
    ∧ (ignores_range 3).http_status = 200
    ∧ reports_done (download_thread (sample_env 1000000 ignores_range) "out".toList
        (spawn_data (sample_env 1000000 ignores_range) 1000000 3) empty_state).1.status
        = true
    ∧ ¬ ((ignores_range 3).curl_res = 0 ∧
          ((ignores_range 3).http_status = 206 ∨
            ((ignores_range 3).http_status = 200 ∧ THREAD_COUNT = 1))) := by
  refine ⟨rfl, rfl, rfl, ?_, by decide⟩
  decide

/-! ### `progress_callback` -/

/-- A call changes `download_speed` only in a later second than the last sample and only
when the last sampled `dlnow` is positive; it then stores the quotient over the statics. -/
theorem progress_callback_speed (st : Statics) (download_speed now dlnow : Int) :
    (progress_callback st download_speed now dlnow).2 =
      if now > st.last_time ∧ st.last_dlnow > 0 then
        Int.tdiv (wrap_long (dlnow - st.last_dlnow)) (wrap_long (now - st.last_time))
      else download_speed := by
  unfold progress_callback
  by_cases h1 : now > st.last_time <;> by_cases h2 : st.last_dlnow > 0 <;> simp [h1, h2]

/-- The statics hold the last sample taken, whichever fetch it came from. -/
theorem progress_callback_statics (st : Statics) (download_speed now dlnow : Int) :
    (progress_callback st download_speed now dlnow).1 =
      if now > st.last_time then { last_time := now, last_dlnow := dlnow } else st := by
  unfold progress_callback
  by_cases h1 : now > st.last_time <;> simp [h1]

/-- C9. The code at the failing input: fetch 0 is sampled at second 100 with 5000 bytes,
then fetch 1 receives its first callback at second 101 with 10 bytes. That first callback
stores `(10 - 5000) / (101 - 100) = -4990` in the `download_speed` of fetch 1, computed
from the sample of fetch 0. A later sample of fetch 0 (second 102, 8000 bytes) stores
`(8000 - 10) / (102 - 101) = 7990`, not `(8000 - 5000) / (102 - 100) = 1500`. -/
theorem progress_callback_shares_statics :
    (deliver_all [⟨0, 100, 5000⟩]).speed 0 = 0
    ∧ (deliver_all [⟨0, 100, 5000⟩]).speed 1 = 0
    ∧ (deliver_all [⟨0, 100, 5000⟩, ⟨1, 101, 10⟩]).speed 1 = -4990
    ∧ (deliver_all [⟨0, 100, 5000⟩, ⟨1, 101, 10⟩, ⟨0, 102, 8000⟩]).speed 0 = 7990
    ∧ Int.tdiv (8000 - 5000) (102 - 100) = 1500 := by
  decide

/-! ### The single-stream branch -/

theorem whole_rejected_iff (curl_res : Nat) (http_code : Int) :
    whole_rejected curl_res http_code = false ↔
      curl_res = 0 ∧ (http_code = 200 ∨ http_code = 201 ∨ http_code = 202) := by
  unfold whole_rejected
  by_cases h0 : curl_res = 0 <;> by_cases h1 : http_code = 200 <;>
    by_cases h2 : http_code = 201 <;> by_cases h3 : http_code = 202 <;>
    simp [h0, h1, h2, h3]

/-- The output path after the single-stream branch, when the output file was opened. -/
theorem single_stream_output (env : Env) (filename : CStr) (st : State)
    (hopen : env.can_create filename = true) :
    (single_stream env filename st).fs filename =
      if env.whole_init then
        (if whole_rejected env.whole.curl_res env.whole.http_status then none
         else some env.whole.body)
      else some [] := by
  unfold single_stream
  simp only [hopen, if_true]
  by_cases hi : env.whole_init = true
  · simp only [hi, if_true]
    by_cases hr : whole_rejected env.whole.curl_res env.whole.http_status = true
    · simp [hr, remove]
    · simp [hr, fwrite, fopen_wb]
  · simp [hi, fopen_wb]

/-- When the handle was created, the output exists on return exactly when the transfer
was `CURLE_OK` with status 200, 201 or 202. -/
theorem single_stream_exists_iff (env : Env) (filename : CStr) (st : State)
    (hopen : env.can_create filename = true) (hinit : env.whole_init = true) :
    ((single_stream env filename st).fs filename).isSome = true ↔
      env.whole.curl_res = 0 ∧ (env.whole.http_status = 200 ∨ env.whole.http_status = 201
        ∨ env.whole.http_status = 202) := by
  rw [single_stream_output env filename st hopen, ← whole_rejected_iff]
  by_cases hr : whole_rejected env.whole.curl_res env.whole.http_status = true
  · simp [hinit, hr]
  · simp [hinit, hr]

/-- The single-stream branch touches no path but the output path. -/
theorem single_stream_frame (env : Env) (filename : CStr) (st : State) (p : CStr)
    (hp : p ≠ filename) : (single_stream env filename st).fs p = st.fs p := by
  unfold single_stream
  by_cases hopen : env.can_create filename = true
  · by_cases hi : env.whole_init = true
    · by_cases hr : whole_rejected env.whole.curl_res env.whole.http_status = true
      · simp [hopen, hi, hr, remove, fwrite, fopen_wb, hp]
      · simp [hopen, hi, hr, fwrite, fopen_wb, hp]
    · simp [hopen, hi, fopen_wb, hp]
  · simp [hopen]

/-- C6. The code at the failing input: the size is unknown (-1), the output file `out` is
opened, and `curl_easy_init` fails. No transfer takes place, and on return the output
path exists, empty. -/
theorem single_stream_leaves_empty_file :
    no_handle_env.probed_size = -1
    ∧ no_handle_env.can_create "out".toList = true
    ∧ no_handle_env.whole_init = false
    ∧ empty_state.fs "out".toList = none
    ∧ ∃ st, multithread_download no_handle_env "http://h/out".toList "out".toList
          empty_state.fs = some st
        ∧ st.fs "out".toList = some []
        ∧ Event.perform_whole ∉ st.log :=
  ⟨by decide, by decide, by decide, by decide, _, rfl, by decide, by decide⟩

/-! ### The threads -/

/-- The `ThreadData` a thread leaves does not depend on the file system or the log. -/
theorem download_thread_data (env : Env) (filename : CStr) (d : ThreadData) (st st' : State) :
    (download_thread env filename d st).1 = (download_thread env filename d st').1 := by
  unfold download_thread
  by_cases h1 : env.can_create (part_filename env.PATH_MAX filename d.thread_id) = true <;>
    by_cases h2 : env.seg_init d.thread_id = true <;> simp [h1, h2]

theorem download_thread_log (env : Env) (filename : CStr) (d : ThreadData) (st : State) :
    (download_thread env filename d st).2.log = st.log ++
      (if env.can_create (part_filename env.PATH_MAX filename d.thread_id) = true
          ∧ env.seg_init d.thread_id = true then
        [Event.perform_range d.thread_id (range_header d.start_byte d.end_byte)]
       else []) := by
  unfold download_thread
  by_cases h1 : env.can_create (part_filename env.PATH_MAX filename d.thread_id) = true <;>
    by_cases h2 : env.seg_init d.thread_id = true <;> simp [h1, h2]

theorem download_thread_fs (env : Env) (filename : CStr) (d : ThreadData) (st : State)
    (q : CStr) :
    (download_thread env filename d st).2.fs q =
      if q = part_filename env.PATH_MAX filename d.thread_id
          ∧ env.can_create (part_filename env.PATH_MAX filename d.thread_id) = true then
        some (if env.seg_init d.thread_id then (env.seg d.thread_id).body else [])
      else st.fs q := by
  unfold download_thread
  by_cases h1 : env.can_create (part_filename env.PATH_MAX filename d.thread_id) = true <;>
    by_cases h2 : env.seg_init d.thread_id = true <;>
    by_cases h3 : q = part_filename env.PATH_MAX filename d.thread_id <;>
    simp [h1, h2, h3, fwrite, fopen_wb]

theorem run_threads_log (env : Env) (filename : CStr) :
    ∀ (ds : List ThreadData) (st : State),
      (run_threads env filename ds st).2.log = st.log ++ ds.flatMap (fun d =>
        if fetches env filename d.thread_id = true then
          [Event.perform_range d.thread_id (range_header d.start_byte d.end_byte)]
        else [])
  | [], st => by simp [run_threads]
  | d :: ds, st => by
    unfold run_threads
    simp only [List.flatMap_cons]
    rw [run_threads_log env filename ds]
    by_cases h0 : env.thread_ok d.thread_id = true
    · simp only [h0, if_true, download_thread_log, List.append_assoc]
      by_cases h1 : env.can_create (part_filename env.PATH_MAX filename d.thread_id) = true <;>
        by_cases h2 : env.seg_init d.thread_id = true <;> simp [fetches, h0, h1, h2]
    · simp [fetches, h0]

theorem run_threads_data (env : Env) (filename : CStr) :
    ∀ (ds : List ThreadData) (st : State),
      (run_threads env filename ds st).1 = ds.map (fun d =>
        if env.thread_ok d.thread_id = true then
          (download_thread env filename d empty_state).1
        else d)
  | [], st => by simp [run_threads]
  | d :: ds, st => by
    unfold run_threads
    simp only [List.map_cons]
    rw [run_threads_data env filename ds]
    by_cases h0 : env.thread_ok d.thread_id = true
    · simp only [h0, if_true]
      rw [download_thread_data env filename d st empty_state]
    · simp [h0]

/-- The threads touch no path but their temp files. -/
theorem run_threads_frame (env : Env) (filename : CStr) (q : CStr) :
    ∀ (ds : List ThreadData) (st : State),
      (∀ d ∈ ds, q ≠ part_filename env.PATH_MAX filename d.thread_id) →
      (run_threads env filename ds st).2.fs q = st.fs q
  | [], st, _ => by simp [run_threads]
  | d :: ds, st, h => by
    unfold run_threads
    simp only
    rw [run_threads_frame env filename q ds _ (fun d' hd' => h d' (List.mem_cons_of_mem _ hd'))]
    have hq := h d (List.mem_cons_self _ _)
    by_cases h0 : env.thread_ok d.thread_id = true
    · simp only [h0, if_true]
      rw [download_thread_fs]
      simp [hq]
    · simp [h0]

/-- With pairwise different temp names, the temp file of a created thread holds, when all
threads are over, what that thread's transfer wrote. -/
theorem run_threads_fs (env : Env) (filename : CStr) :
    ∀ (ds : List ThreadData) (st : State),
      ds.Pairwise (fun a b => part_filename env.PATH_MAX filename a.thread_id
        ≠ part_filename env.PATH_MAX filename b.thread_id) →
      ∀ d ∈ ds, env.thread_ok d.thread_id = true →
        env.can_create (part_filename env.PATH_MAX filename d.thread_id) = true →
        (run_threads env filename ds st).2.fs (part_filename env.PATH_MAX filename d.thread_id)
          = some (if env.seg_init d.thread_id then (env.seg d.thread_id).body else [])
  | [], _, _, d, hd, _, _ => by simp at hd
  | d0 :: ds, st, hpw, d, hd, hok, hcan => by
    obtain ⟨hhead, htail⟩ := List.pairwise_cons.mp hpw
    unfold run_threads
    simp only
    rcases List.mem_cons.mp hd with he | hmem
    · subst he
      rw [run_threads_frame env filename _ ds _ (fun d' hd' => hhead d' hd')]
      simp only [hok, if_true]
      rw [download_thread_fs]
      simp [hcan]
    · exact run_threads_fs env filename ds _ htail d hmem hok hcan

/-! ### The parallel branch -/

/-- The file system the threads leave does not depend on the log. -/
theorem run_threads_fs_log (env : Env) (filename : CStr) :
    ∀ (ds : List ThreadData) (fs : FS) (l l' : List Event),
      (run_threads env filename ds { fs := fs, log := l }).2.fs
        = (run_threads env filename ds { fs := fs, log := l' }).2.fs
  | [], _, _, _ => by simp [run_threads]
  | d :: ds, fs, l, l' => by
    unfold run_threads
    simp only
    by_cases h0 : env.thread_ok d.thread_id = true
    · simp only [h0, if_true]
      have hfs : (download_thread env filename d { fs := fs, log := l }).2.fs
          = (download_thread env filename d { fs := fs, log := l' }).2.fs := by
        funext q
        rw [download_thread_fs, download_thread_fs]
      have h1 := run_threads_fs_log env filename ds
        (download_thread env filename d { fs := fs, log := l }).2.fs
        (download_thread env filename d { fs := fs, log := l }).2.log []
      have h2 := run_threads_fs_log env filename ds
        (download_thread env filename d { fs := fs, log := l' }).2.fs
        (download_thread env filename d { fs := fs, log := l' }).2.log []
      rw [h1, h2, hfs]
    · simp only [h0]
      exact run_threads_fs_log env filename ds fs l l'

theorem download_thread_id (env : Env) (filename : CStr) (d : ThreadData) (st : State) :
    (download_thread env filename d st).1.thread_id = d.thread_id := by
  unfold download_thread
  by_cases h1 : env.can_create (part_filename env.PATH_MAX filename d.thread_id) = true <;>
    by_cases h2 : env.seg_init d.thread_id = true <;> simp [h1, h2]

theorem thread_result_id (env : Env) (filename : CStr) (i : Nat) :
    (thread_result env filename i).thread_id = i := by
  unfold thread_result
  by_cases h0 : env.thread_ok i = true
  · rw [if_pos h0, download_thread_id]
    rfl
  · rw [if_neg h0]
    rfl

/-- The `thread_data` array when the threads are over. -/
theorem run_threads_results (env : Env) (filename : CStr) (st : State) :
    (run_threads env filename
      ((List.range THREAD_COUNT).map (spawn_data env env.probed_size)) st).1
      = (List.range THREAD_COUNT).map (thread_result env filename) := by
  rw [run_threads_data, List.map_map]
  rfl

/-- When every thread of the list was created, the join loop joins all of them. -/
theorem join_loop_all (env : Env) :
    ∀ ds : List ThreadData, (∀ d ∈ ds, env.thread_ok d.thread_id = true) →
      join_loop env ds = some (ds.flatMap join_events)
  | [], _ => rfl
  | d :: ds, h => by
    unfold join_loop
    rw [if_pos (h d (List.mem_cons_self _ _)),
      join_loop_all env ds (fun d' hd' => h d' (List.mem_cons_of_mem _ hd'))]
    simp

/-- When some thread of the list was not created, the join loop has no defined result. -/
theorem join_loop_none (env : Env) :
    ∀ ds : List ThreadData, (∃ d ∈ ds, env.thread_ok d.thread_id = false) →
      join_loop env ds = none
  | [], h => by
    obtain ⟨d, hd, -⟩ := h
    simp at hd
  | d :: ds, h => by
    unfold join_loop
    by_cases h0 : env.thread_ok d.thread_id = true
    · rw [if_pos h0]
      obtain ⟨d', hd', hbad⟩ := h
      rcases List.mem_cons.mp hd' with he | hmem
      · subst he
        rw [h0] at hbad
        cases hbad
      · rw [join_loop_none env ds ⟨d', hmem, hbad⟩]
    · rw [if_neg h0]

theorem merge_and_report_log (env : Env) (filename : CStr) (st : State) :
    (merge_and_report env filename st).log =
      st.log ++ [Event.merge (THREAD_COUNT : Int),
        Event.say (if (merge_files env.PATH_MAX env.can_create st.fs filename
            (THREAD_COUNT : Int)).2 ≠ 0
          then "下载完成并合并成功\n".toList else "文件合并失败\n".toList)] := by
  unfold merge_and_report
  simp only
  split <;> simp

theorem merge_and_report_fs (env : Env) (filename : CStr) (st : State) :
    (merge_and_report env filename st).fs =
      if (merge_files env.PATH_MAX env.can_create st.fs filename (THREAD_COUNT : Int)).2 ≠ 0
      then (merge_files env.PATH_MAX env.can_create st.fs filename (THREAD_COUNT : Int)).1
      else remove (merge_files env.PATH_MAX env.can_create st.fs filename
        (THREAD_COUNT : Int)).1 filename := by
  unfold merge_and_report
  simp only
  split <;> rfl

/-- The events logged while the threads run. -/
theorem run_threads_events (env : Env) (filename : CStr) (st : State) :
    (run_threads env filename
      ((List.range THREAD_COUNT).map (spawn_data env env.probed_size)) st).2.log
      = st.log ++ (List.range THREAD_COUNT).flatMap (fun i =>
          if fetches env filename i then
            [Event.perform_range i (range_header (start_byte env.probed_size THREAD_COUNT i)
              (end_byte env.probed_size THREAD_COUNT i))]
          else []) := by
  rw [run_threads_log]
  congr 1

/-- A run of the parallel branch in which every thread was created is defined: it is the
merge after the events up to the last join. -/
theorem multithread_download_defined (env : Env) (url filename : CStr) (fs : FS)
    (h1 : 1 ≤ env.probed_size) (hall : ∀ i, i < THREAD_COUNT → env.thread_ok i = true) :
    multithread_download env url filename fs =
      some (merge_and_report env filename (state_before_merge env url filename fs)) := by
  unfold multithread_download
  rw [if_neg (by omega)]
  unfold parallel
  simp only
  rw [run_threads_results, run_threads_events]
  have hjoin : join_loop env ((List.range THREAD_COUNT).map (thread_result env filename))
      = some (((List.range THREAD_COUNT).map (thread_result env filename)).flatMap
          join_events) := by
    apply join_loop_all
    intro d hd
    obtain ⟨i, hi, rfl⟩ := List.mem_map.mp hd
    rw [thread_result_id]
    exact hall i (List.mem_range.mp hi)
  rw [hjoin]
  simp only
  congr 2
  unfold state_before_merge fs_after_threads events_before_merge
  congr 1
  exact run_threads_fs_log env filename _ fs _ []

/-- A run of the parallel branch in which some thread was not created has no defined
result. -/
theorem multithread_download_undefined (env : Env) (url filename : CStr) (fs : FS)
    (h1 : 1 ≤ env.probed_size) (hbad : ∃ i, i < THREAD_COUNT ∧ env.thread_ok i = false) :
    multithread_download env url filename fs = none := by
  unfold multithread_download
  rw [if_neg (by omega)]
  unfold parallel
  simp only
  rw [run_threads_results]
  obtain ⟨i, hi, hbad⟩ := hbad
  rw [join_loop_none env _ ⟨thread_result env filename i,
    List.mem_map.mpr ⟨i, List.mem_range.mpr hi, rfl⟩, by rw [thread_result_id]; exact hbad⟩]

theorem mem_events_before_merge (env : Env) (filename : CStr) (e : Event) :
    e ∈ events_before_merge env filename ↔
      (∃ i, i < THREAD_COUNT ∧ e = spawn_event env env.probed_size i)
      ∨ (∃ i, i < THREAD_COUNT ∧ fetches env filename i = true ∧
          e = Event.perform_range i (range_header (start_byte env.probed_size THREAD_COUNT i)
            (end_byte env.probed_size THREAD_COUNT i)))
      ∨ (∃ i, i < THREAD_COUNT ∧ e ∈ join_events (thread_result env filename i)) := by
  unfold events_before_merge
  simp only [List.mem_append, List.mem_map, List.mem_flatMap, List.mem_range, or_assoc]
  constructor
  · rintro (⟨i, hi, rfl⟩ | ⟨i, hi, he⟩ | ⟨i, hi, he⟩)
    · exact Or.inl ⟨i, hi, rfl⟩
    · by_cases hf : fetches env filename i = true
      · rw [if_pos hf] at he
        exact Or.inr (Or.inl ⟨i, hi, hf, by simpa using he⟩)
      · rw [if_neg hf] at he
        simp at he
    · exact Or.inr (Or.inr ⟨i, hi, he⟩)
  · rintro (⟨i, hi, rfl⟩ | ⟨i, hi, hf, rfl⟩ | ⟨i, hi, he⟩)
    · exact Or.inl ⟨i, hi, rfl⟩
    · exact Or.inr (Or.inl ⟨i, hi, by simp [hf]⟩)
    · exact Or.inr (Or.inr ⟨i, hi, he⟩)

/-- Before the merge there is neither a merge nor an unranged transfer. -/
theorem events_before_merge_kinds (env : Env) (filename : CStr) (e : Event)
    (he : e ∈ events_before_merge env filename) :
    e.is_merge = false ∧ e ≠ Event.perform_whole := by
  rcases (mem_events_before_merge env filename e).mp he with
    ⟨i, _, rfl⟩ | ⟨i, _, _, rfl⟩ | ⟨i, _, hj⟩
  · unfold spawn_event
    by_cases h : env.thread_ok i = true <;> simp [h, Event.is_merge]
  · simp [Event.is_merge]
  · unfold join_events at hj
    simp only [List.mem_cons, List.mem_singleton, List.not_mem_nil, or_false] at hj
    rcases hj with rfl | rfl <;> simp [Event.is_merge]

/-- Every segment is joined. -/
theorem join_mem_events (env : Env) (filename : CStr) (i : Nat) (hi : i < THREAD_COUNT) :
    Event.join i ∈ events_before_merge env filename := by
  rw [mem_events_before_merge]
  refine Or.inr (Or.inr ⟨i, hi, ?_⟩)
  unfold join_events
  rw [thread_result_id]
  simp

/-- The threads launched are those `pthread_create` succeeded for, with the planned
offsets. -/
theorem create_mem_events_iff (env : Env) (filename : CStr) (i : Nat) (s e : Int) :
    Event.create_thread i s e ∈ events_before_merge env filename ↔
      i < THREAD_COUNT ∧ env.thread_ok i = true
        ∧ s = start_byte env.probed_size THREAD_COUNT i
        ∧ e = end_byte env.probed_size THREAD_COUNT i := by
  rw [mem_events_before_merge]
  constructor
  · rintro (⟨j, hj, he⟩ | ⟨j, _, _, he⟩ | ⟨j, _, he⟩)
    · unfold spawn_event at he
      by_cases hok : env.thread_ok j = true
      · rw [if_pos hok] at he
        injection he with h1 h2 h3
        subst h1
        exact ⟨hj, hok, h2, h3⟩
      · rw [if_neg hok] at he
        cases he
    · cases he
    · unfold join_events at he
      simp at he
  · rintro ⟨hi, hok, rfl, rfl⟩
    refine Or.inl ⟨i, hi, ?_⟩
    unfold spawn_event
    rw [if_pos hok]

/-- The ranged transfers performed are those of the segments whose thread, temp file and
handle were created, each with the `Range` text of its planned offsets. -/
theorem perform_mem_events_iff (env : Env) (filename : CStr) (i : Nat) (r : CStr) :
    Event.perform_range i r ∈ events_before_merge env filename ↔
      i < THREAD_COUNT ∧ fetches env filename i = true
        ∧ r = range_header (start_byte env.probed_size THREAD_COUNT i)
            (end_byte env.probed_size THREAD_COUNT i) := by
  rw [mem_events_before_merge]
  constructor
  · rintro (⟨j, _, he⟩ | ⟨j, hj, hf, he⟩ | ⟨j, _, he⟩)
    · unfold spawn_event at he
      by_cases hok : env.thread_ok j = true
      · rw [if_pos hok] at he; cases he
      · rw [if_neg hok] at he; cases he
    · injection he with h1 h2
      subst h1
      exact ⟨hj, hf, h2⟩
    · unfold join_events at he
      simp at he
  · rintro ⟨hi, hf, rfl⟩
    exact Or.inr (Or.inl ⟨i, hi, hf, rfl⟩)

/-- An event of the segment phase is in the log of a defined run of the parallel branch
exactly when it is among the events before the merge. -/
theorem mem_run_log (env : Env) (url filename : CStr) (fs : FS) (e : Event)
    (hs : ∀ t, e ≠ Event.say t) (hm : e.is_merge = false) :
    e ∈ (merge_and_report env filename (state_before_merge env url filename fs)).log ↔
      e ∈ events_before_merge env filename := by
  rw [merge_and_report_log]
  unfold state_before_merge
  simp only [List.mem_append, List.mem_cons, List.mem_singleton, List.not_mem_nil, or_false]
  constructor
  · rintro ((h | h) | h | h)
    · rcases h with h | h | h <;> exact absurd h (hs _)
    · exact h
    · rw [h] at hm
      simp [Event.is_merge] at hm
    · exact absurd h (hs _)
  · intro h
    exact Or.inl (Or.inr h)

/-! ### Path selection -/

/-- The log of the single-stream branch. -/
theorem single_stream_log (env : Env) (filename : CStr) (st : State) :
    ∃ tail : List Event,
      (single_stream env filename st).log =
        st.log ++ Event.say "无法获取文件大小，使用单线程下载\n".toList :: tail
      ∧ (∀ e ∈ tail, e.is_segment_event = false)
      ∧ tail.count Event.perform_whole =
          (if env.can_create filename = true ∧ env.whole_init = true then 1 else 0) := by
  unfold single_stream
  by_cases hopen : env.can_create filename = true
  · by_cases hi : env.whole_init = true
    · by_cases hr : whole_rejected env.whole.curl_res env.whole.http_status = true
      · exact ⟨[Event.perform_whole, Event.say ("下载失败: ".toList ++
          env.strerror env.whole.curl_res ++ " (HTTP ".toList ++
          fmt_d env.whole.http_status ++ ")\n清理中...\n".toList)],
          by simp [hopen, hi, hr], by simp [Event.is_segment_event],
          by simp [hopen, hi, List.count_cons]⟩
      · exact ⟨[Event.perform_whole, Event.say "下载成功\n".toList],
          by simp [hopen, hi, hr], by simp [Event.is_segment_event],
          by simp [hopen, hi, List.count_cons]⟩
    · exact ⟨[], by simp [hopen, hi], by simp, by simp [hi]⟩
  · exact ⟨[Event.say ("无法创建文件: ".toList ++ filename ++ "\n".toList)],
      by simp [hopen], by simp [Event.is_segment_event], by simp [hopen, List.count_cons]⟩

/-- When the output file cannot be opened, the single-stream branch changes no file. -/
theorem single_stream_not_opened (env : Env) (filename : CStr) (st : State)
    (hopen : ¬ env.can_create filename = true) :
    (single_stream env filename st).fs = st.fs := by
  unfold single_stream
  simp [hopen]

/-- C7 (as amended). A run of `multithread_download` that returns has taken the
single-stream branch (no thread, ranged transfer, join or merge) exactly when the probed
size is `<= 0`. In that branch no path but the output path changes, there is one unranged
transfer when the output file and the handle could be created (none otherwise), and the
output path holds on return the bytes of that transfer when it was accepted and does not
exist when it was rejected (the statement also records the empty file the code leaves
when no handle could be created, the subject of C6). When the size is `>= 1` and
every thread could be created, the plan has `THREAD_COUNT = 16` segments, all 16 are
launched with their planned offsets and joined, the ranged transfers are those of the
segments whose temp file and handle were created, `merge_files` is called exactly once,
after all of that, and there is no unranged transfer. -/
theorem multithread_download_paths (env : Env) (url filename : CStr) (fs : FS) :
    (∀ st, multithread_download env url filename fs = some st →
        ((∀ e ∈ st.log, e.is_segment_event = false) ↔ env.probed_size ≤ 0))
    ∧ (env.probed_size ≤ 0 →
        ∃ st, multithread_download env url filename fs = some st
          ∧ (∀ p : CStr, p ≠ filename → st.fs p = fs p)
          ∧ st.log.count Event.perform_whole =
              (if env.can_create filename = true ∧ env.whole_init = true then 1 else 0)
          ∧ st.fs filename =
              (if env.can_create filename = true then
                (if env.whole_init = true then
                  (if env.whole.curl_res = 0 ∧ (env.whole.http_status = 200
                      ∨ env.whole.http_status = 201 ∨ env.whole.http_status = 202)
                   then some env.whole.body else none)
                 else some [])
               else fs filename))
    ∧ (1 ≤ env.probed_size → (∀ i, i < THREAD_COUNT → env.thread_ok i = true) →
        ∃ st, multithread_download env url filename fs = some st
          ∧ (segment_plan env.probed_size THREAD_COUNT).length = 16
          ∧ Event.perform_whole ∉ st.log
          ∧ st.log.countP Event.is_merge = 1
          ∧ ∃ (pre : List Event) (verdict : CStr),
              st.log = pre ++ [Event.merge (THREAD_COUNT : Int), Event.say verdict]
              ∧ (∀ i, i < THREAD_COUNT → Event.join i ∈ pre)
              ∧ (∀ (i : Nat) (s e : Int), Event.create_thread i s e ∈ pre ↔
                  i < THREAD_COUNT
                    ∧ s = start_byte env.probed_size THREAD_COUNT i
                    ∧ e = end_byte env.probed_size THREAD_COUNT i)
              ∧ (∀ (i : Nat) (r : CStr), Event.perform_range i r ∈ pre ↔
                  i < THREAD_COUNT
                    ∧ env.can_create (part_filename env.PATH_MAX filename i) = true
                    ∧ env.seg_init i = true
                    ∧ r = range_header (start_byte env.probed_size THREAD_COUNT i)
                        (end_byte env.probed_size THREAD_COUNT i))) := by
  have hsingle : env.probed_size ≤ 0 →
      multithread_download env url filename fs = some (single_stream env filename
        { fs := fs, log := [Event.say ("开始下载: ".toList ++ url ++ "\n".toList),
            Event.say ("保存到: ".toList ++ filename ++ "\n".toList)] }) := by
    intro h0
    unfold multithread_download
    rw [if_pos h0]
  have hsays : ∀ e : Event, e ∈ [Event.say ("开始下载: ".toList ++ url ++ "\n".toList),
      Event.say ("保存到: ".toList ++ filename ++ "\n".toList),
      Event.say ("文件大小: ".toList ++ env.fmt_mb env.probed_size ++ " MB\n".toList)] →
      ∃ t, e = Event.say t := by
    intro e he
    simp only [List.mem_cons, List.mem_singleton, List.not_mem_nil, or_false] at he
    rcases he with rfl | rfl | rfl <;> exact ⟨_, rfl⟩
  refine ⟨?_, ?_, ?_⟩
  · intro st hst
    by_cases h0 : env.probed_size ≤ 0
    · rw [hsingle h0] at hst
      injection hst with hst
      subst hst
      refine ⟨fun _ => h0, fun _ e he => ?_⟩
      obtain ⟨tail, hlog, htail, -⟩ := single_stream_log env filename
        { fs := fs, log := [Event.say ("开始下载: ".toList ++ url ++ "\n".toList),
            Event.say ("保存到: ".toList ++ filename ++ "\n".toList)] }
      rw [hlog] at he
      simp only [List.mem_append, List.mem_cons, List.mem_singleton, List.not_mem_nil,
        or_false] at he
      rcases he with (rfl | rfl) | rfl | he
      · rfl
      · rfl
      · rfl
      · exact htail e he
    · have h1 : 1 ≤ env.probed_size := by omega
      by_cases hall : ∀ i, i < THREAD_COUNT → env.thread_ok i = true
      · rw [multithread_download_defined env url filename fs h1 hall] at hst
        injection hst with hst
        subst hst
        constructor
        · intro h
          have := h (Event.merge (THREAD_COUNT : Int)) (by rw [merge_and_report_log]; simp)
          simp [Event.is_segment_event] at this
        · intro h
          exact absurd h h0
      · have hbad : ∃ i, i < THREAD_COUNT ∧ env.thread_ok i = false := by
          by_contra hne
          apply hall
          intro i hi
          by_contra hok
          exact hne ⟨i, hi, by simpa using hok⟩
        rw [multithread_download_undefined env url filename fs h1 hbad] at hst
        cases hst
  · intro h0
    refine ⟨_, hsingle h0, fun p hp => single_stream_frame env filename _ p hp, ?_, ?_⟩
    · obtain ⟨tail, hlog, -, hcount⟩ := single_stream_log env filename
        { fs := fs, log := [Event.say ("开始下载: ".toList ++ url ++ "\n".toList),
            Event.say ("保存到: ".toList ++ filename ++ "\n".toList)] }
      rw [hlog, ← hcount]
      simp [List.count_cons]
    · by_cases hopen : env.can_create filename = true
      · rw [if_pos hopen, single_stream_output env filename _ hopen]
        by_cases hi : env.whole_init = true
        · rw [if_pos hi, if_pos hi]
          by_cases hr : whole_rejected env.whole.curl_res env.whole.http_status = true
          · have hna : ¬ (env.whole.curl_res = 0 ∧ (env.whole.http_status = 200
                ∨ env.whole.http_status = 201 ∨ env.whole.http_status = 202)) := by
              rw [← whole_rejected_iff]
              simp [hr]
            rw [if_pos hr, if_neg hna]
          · have ha : env.whole.curl_res = 0 ∧ (env.whole.http_status = 200
                ∨ env.whole.http_status = 201 ∨ env.whole.http_status = 202) := by
              rw [← whole_rejected_iff]
              simpa using hr
            rw [if_neg hr, if_pos ha]
        · rw [if_neg hi, if_neg hi]
      · rw [if_neg hopen, single_stream_not_opened env filename _ hopen]
  · intro h1 hall
    refine ⟨_, multithread_download_defined env url filename fs h1 hall,
      by simp [segment_plan, THREAD_COUNT], ?_, ?_,
      (state_before_merge env url filename fs).log,
      (if (merge_files env.PATH_MAX env.can_create (state_before_merge env url filename fs).fs
          filename (THREAD_COUNT : Int)).2 ≠ 0
        then "下载完成并合并成功\n".toList else "文件合并失败\n".toList), ?_, ?_, ?_, ?_⟩
    · intro hmem
      rw [merge_and_report_log] at hmem
      unfold state_before_merge at hmem
      rcases List.mem_append.mp hmem with h | h
      · rcases List.mem_append.mp h with h | h
        · obtain ⟨t, ht⟩ := hsays _ h
          cases ht
        · exact (events_before_merge_kinds env filename _ h).2 rfl
      · simp at h
    · rw [merge_and_report_log]
      unfold state_before_merge
      rw [List.countP_append, List.countP_append]
      have hz : List.countP Event.is_merge (events_before_merge env filename) = 0 :=
        List.countP_eq_zero.mpr (fun e he => by
          simp [(events_before_merge_kinds env filename e he).1])
      rw [hz]
      simp [Event.is_merge, List.countP_cons]
    · exact merge_and_report_log env filename _
    · intro i hi
      exact List.mem_append_right _ (join_mem_events env filename i hi)
    · intro i s e
      show Event.create_thread i s e ∈ _ ++ events_before_merge env filename ↔ _
      rw [List.mem_append, create_mem_events_iff env filename i s e]
      constructor
      · rintro (h | ⟨hi, -, hs, he⟩)
        · obtain ⟨t, ht⟩ := hsays _ h
          cases ht
        · exact ⟨hi, hs, he⟩
      · rintro ⟨hi, hs, he⟩
        exact Or.inr ⟨hi, hall i hi, hs, he⟩
    · intro i r
      show Event.perform_range i r ∈ _ ++ events_before_merge env filename ↔ _
      rw [List.mem_append, perform_mem_events_iff env filename i r]
      constructor
      · rintro (h | ⟨hi, hf, hr⟩)
        · obtain ⟨t, ht⟩ := hsays _ h
          cases ht
        · unfold fetches at hf
          simp only [Bool.and_eq_true] at hf
          exact ⟨hi, hf.1.2, hf.2, hr⟩
      · rintro ⟨hi, hc, hs, hr⟩
        refine Or.inr ⟨hi, ?_, hr⟩
        unfold fetches
        simp [hall i hi, hc, hs]

/-- C7 as stated fails when a handle cannot be created. With an unknown size (-1) and a
failing `curl_easy_init`, the single-stream branch performs no unranged transfer. With a
size of 1,000,000 and all 16 threads created, `curl_easy_init` fails in the thread of
segment 5: the segment is planned, launched and joined, and never fetched. -/
theorem multithread_download_paths_counterexample :
    (no_handle_env.probed_size ≤ 0
      ∧ ∃ st, multithread_download no_handle_env "http://h/out".toList "out".toList
            empty_state.fs = some st
          ∧ Event.perform_whole ∉ st.log)
    ∧ (1 ≤ no_handle_5_env.probed_size
      ∧ (∀ i, no_handle_5_env.thread_ok i = true)
      ∧ no_handle_5_env.seg_init 5 = false
      ∧ ∃ st, multithread_download no_handle_5_env "http://h/out".toList "out".toList
            empty_state.fs = some st
          ∧ Event.create_thread 5 312500 374999 ∈ st.log
          ∧ Event.join 5 ∈ st.log
          ∧ ∀ r : CStr, Event.perform_range 5 r ∉ st.log) := by
  have h1 : 1 ≤ no_handle_5_env.probed_size := by decide
  have hall : ∀ i, no_handle_5_env.thread_ok i = true := fun _ => rfl
  refine ⟨⟨by decide, _, rfl, by decide⟩, h1, hall, rfl, _,
    multithread_download_defined _ _ _ _ h1 (fun i _ => hall i), ?_, ?_, ?_⟩
  · rw [mem_run_log _ _ _ _ (Event.create_thread 5 312500 374999)
      (fun t h => by cases h) rfl, create_mem_events_iff]
    decide
  · rw [mem_run_log _ _ _ _ (Event.join 5) (fun t h => by cases h) rfl]
    exact join_mem_events _ _ 5 (by decide)
  · intro r
    rw [mem_run_log _ _ _ _ (Event.perform_range 5 r) (fun t h => by cases h) rfl,
      perform_mem_events_iff]
    rintro ⟨-, hf, -⟩
    revert hf
    decide

/-- The join of a thread that was never created: with `pthread_create` failing for
segment 5 the run has no defined result. -/
theorem join_of_missing_thread_undefined :
    multithread_download no_thread_5_env "http://h/out".toList "out".toList empty_state.fs
      = none :=
  multithread_download_undefined _ _ _ _ (by decide) ⟨5, by decide, rfl⟩

/-! ### Degenerate ranges -/

/-- For a size below the segment count the chunk is 0 and every segment but the last has
the range `[0, -1]`. -/
theorem small_file_ranges {file_size : Int} {i : Nat} (h0 : 0 < file_size)
    (h : file_size < 16) (hi : i + 1 < THREAD_COUNT) :
    start_byte file_size THREAD_COUNT i = 0 ∧ end_byte file_size THREAD_COUNT i = -1 := by
  have hl : file_size < 2 ^ 63 := by omega
  have hN : 1 ≤ THREAD_COUNT := by decide
  have hc : chunk_size file_size THREAD_COUNT = 0 := by
    rw [chunk_size_eq THREAD_COUNT (le_of_lt h0)]
    exact Int.ediv_eq_zero_of_lt (le_of_lt h0) (by simpa [THREAD_COUNT] using h)
  rw [start_byte_eq h0 hl hN (by omega), end_byte_eq h0 hl hN hi, hc]
  simp

/-- For a size of at least the segment count every planned range is non-empty and starts
at a non-negative offset. -/
theorem large_file_ranges {file_size : Int} {i : Nat} (h : 16 ≤ file_size)
    (hl : file_size < 2 ^ 63) (hi : i < THREAD_COUNT) :
    0 ≤ start_byte file_size THREAD_COUNT i
    ∧ start_byte file_size THREAD_COUNT i ≤ end_byte file_size THREAD_COUNT i := by
  have h0 : 0 < file_size := by omega
  have hN : 1 ≤ THREAD_COUNT := by decide
  have hc : 1 ≤ chunk_size file_size THREAD_COUNT := by
    rw [chunk_size_eq THREAD_COUNT (le_of_lt h0)]
    exact Int.le_ediv_of_mul_le (by decide) (by simpa [THREAD_COUNT] using h)
  have hm := chunk_size_mul_le (le_of_lt h0) hN
  refine ⟨(segment_bounds h0 hl hN hi).1, ?_⟩
  by_cases hlast : i + 1 < THREAD_COUNT
  · rw [start_byte_eq h0 hl hN hi, end_byte_eq h0 hl hN hlast]
    linarith
  · have hiN : i = THREAD_COUNT - 1 := by omega
    rw [hiN, start_byte_eq h0 hl hN (by decide), end_byte_last h0 hl hN]
    have : ((THREAD_COUNT - 1 : Nat) : Int) = (THREAD_COUNT : Int) - 1 := by decide
    rw [this]
    linarith

/-- C3. The code at the failing input: for a size of 3 bytes the chunk is 0, segment 0
is planned as `[0, -1]`, its thread is created with these offsets, and its transfer is
performed with the `Range` text `0--1`; the same holds for segment 14. -/
theorem inverted_range_is_issued :
    (sample_env 3 partial_content).probed_size = 3
    ∧ chunk_size 3 THREAD_COUNT = 0
    ∧ start_byte 3 THREAD_COUNT 0 = 0
    ∧ end_byte 3 THREAD_COUNT 0 = -1
    ∧ ∃ st, multithread_download (sample_env 3 partial_content) "http://h/out".toList
          "out".toList empty_state.fs = some st
        ∧ Event.create_thread 0 0 (-1) ∈ st.log
        ∧ Event.perform_range 0 "0--1".toList ∈ st.log
        ∧ Event.create_thread 14 0 (-1) ∈ st.log
        ∧ Event.perform_range 14 "0--1".toList ∈ st.log := by
  have h1 : 1 ≤ (sample_env 3 partial_content).probed_size := by decide
  refine ⟨rfl, by decide, by decide, by decide, _,
    multithread_download_defined _ _ _ _ h1 (fun _ _ => rfl), ?_, ?_, ?_, ?_⟩
  · rw [mem_run_log _ _ _ _ (Event.create_thread 0 0 (-1))
      (fun t h => by cases h) rfl, create_mem_events_iff]
    decide
  · rw [mem_run_log _ _ _ _ (Event.perform_range 0 "0--1".toList)
      (fun t h => by cases h) rfl, perform_mem_events_iff]
    decide
  · rw [mem_run_log _ _ _ _ (Event.create_thread 14 0 (-1))
      (fun t h => by cases h) rfl, create_mem_events_iff]
    decide
  · rw [mem_run_log _ _ _ _ (Event.perform_range 14 "0--1".toList)
      (fun t h => by cases h) rfl, perform_mem_events_iff]
    decide

/-! ### Failed segments and the merge -/

/-- When every thread and every temp file was created and the part names fit the buffer,
each part file holds, when the threads are over, what its transfer wrote. -/
theorem fs_after_threads_part (env : Env) (filename : CStr) (fs : FS)
    (hfit : ∀ i, i < THREAD_COUNT → (part_text filename i).length < env.PATH_MAX)
    (hall : ∀ i, i < THREAD_COUNT →
      env.thread_ok i = true ∧ env.can_create (part_text filename i) = true)
    (i : Nat) (hi : i < THREAD_COUNT) :
    fs_after_threads env filename fs (part_text filename i)
      = some (if env.seg_init i then (env.seg i).body else []) := by
  have hname : ∀ j, j < THREAD_COUNT →
      part_filename env.PATH_MAX filename j = part_text filename j :=
    fun j hj => part_filename_fits (hfit j hj)
  have hpw : ((List.range THREAD_COUNT).map (spawn_data env env.probed_size)).Pairwise
      (fun a b => part_filename env.PATH_MAX filename a.thread_id
        ≠ part_filename env.PATH_MAX filename b.thread_id) := by
    rw [List.pairwise_map]
    apply List.Pairwise.imp_of_mem _ (List.pairwise_lt_range THREAD_COUNT)
    intro a b ha hb hab
    show part_filename env.PATH_MAX filename a ≠ part_filename env.PATH_MAX filename b
    rw [hname a (List.mem_range.mp ha), hname b (List.mem_range.mp hb)]
    intro e
    exact absurd (part_text_injective e) (by omega)
  have hmem : spawn_data env env.probed_size i
      ∈ (List.range THREAD_COUNT).map (spawn_data env env.probed_size) :=
    List.mem_map.mpr ⟨i, List.mem_range.mpr hi, rfl⟩
  have := run_threads_fs env filename _ { fs := fs, log := [] } hpw _ hmem
    (hall i hi).1 (by
      show env.can_create (part_filename env.PATH_MAX filename i) = true
      rw [hname i hi]; exact (hall i hi).2)
  unfold fs_after_threads
  rw [← hname i hi]
  exact this

theorem getLast?_append_pair (pre : List Event) (a b : Event) :
    (pre ++ [a, b]).getLast? = some b := by
  rw [show pre ++ [a, b] = (pre ++ [a]) ++ [b] by simp]
  exact List.getLast?_concat _

/-- When the output file, every thread and every temp file could be created, the run
ends with the line of success and the output holds what the 16 transfers wrote, in index
order, whatever their results and status codes were. -/
theorem parallel_merges_all (env : Env) (url filename : CStr) (fs : FS)
    (h1 : 1 ≤ env.probed_size) (hopen : env.can_create filename = true)
    (hfit : ∀ i, i < THREAD_COUNT → (part_text filename i).length < env.PATH_MAX)
    (hall : ∀ i, i < THREAD_COUNT →
      env.thread_ok i = true ∧ env.can_create (part_text filename i) = true) :
    ∃ st, multithread_download env url filename fs = some st
      ∧ st.fs filename = some ((List.range THREAD_COUNT).flatMap
          (fun i => if env.seg_init i then (env.seg i).body else []))
      ∧ st.log.getLast? = some (Event.say "下载完成并合并成功\n".toList) := by
  obtain ⟨hout, -, -, -, hiff⟩ :=
    merge_loop_spec env.PATH_MAX filename (fs_after_threads env filename fs) THREAD_COUNT hfit
  have hm : merge_files env.PATH_MAX env.can_create (fs_after_threads env filename fs)
      filename (THREAD_COUNT : Int)
      = (List.range THREAD_COUNT).foldl (merge_step env.PATH_MAX filename)
          (fopen_wb (fs_after_threads env filename fs) filename, 1) := by
    unfold merge_files
    rw [if_pos hopen]
    rfl
  have hret : (merge_files env.PATH_MAX env.can_create (fs_after_threads env filename fs)
      filename (THREAD_COUNT : Int)).2 = 1 := by
    rw [hm, hiff]
    intro i hi
    rw [fs_after_threads_part env filename fs hfit hall i hi]
    rfl
  have hfs : (state_before_merge env url filename fs).fs = fs_after_threads env filename fs :=
    rfl
  refine ⟨_, multithread_download_defined env url filename fs h1 (fun i hi => (hall i hi).1),
    ?_, ?_⟩
  · rw [merge_and_report_fs, hfs, hret, if_pos (by decide), hm, hout]
    congr 1
    apply List.flatMap_congr
    intro i hi
    rw [fs_after_threads_part env filename fs hfit hall i (List.mem_range.mp hi)]
    rfl
  · rw [merge_and_report_log, hfs, hret, if_pos (by decide)]
    exact getLast?_append_pair _ _ _

/-- C2. The code at the failing input: a download of 1,000,000 bytes in which every temp
file is created and segment 2 is answered with status 404 and a two-byte error page.
Segment 2 is reported failed, and yet the run ends with the line of success and the
output file exists, with the error page merged between segments 1 and 3. -/
theorem failed_segment_is_merged :
    ((sample_env 1000000 not_found_at_2).seg 2).http_status = 404
    ∧ reports_failed (thread_result (sample_env 1000000 not_found_at_2) "out".toList 2).status
        = true
    ∧ ∃ st, multithread_download (sample_env 1000000 not_found_at_2) "http://h/out".toList
          "out".toList empty_state.fs = some st
        ∧ st.fs "out".toList
            = some [0, 1, 78, 70, 3, 4, 5, 6, 7, 8, 9, 10, 11, 12, 13, 14, 15]
        ∧ st.log.getLast? = some (Event.say "下载完成并合并成功\n".toList) := by
  have hfit : ∀ i, i < THREAD_COUNT →
      (part_text "out".toList i).length < (sample_env 1000000 not_found_at_2).PATH_MAX := by
    decide
  obtain ⟨st, hst, hfs, hlast⟩ := parallel_merges_all (sample_env 1000000 not_found_at_2)
    "http://h/out".toList "out".toList empty_state.fs (by decide) rfl hfit
    (fun _ _ => ⟨rfl, rfl⟩)
  refine ⟨rfl, by decide, st, hst, ?_, hlast⟩
  rw [hfs]
  decide

end SixCurl
